import Mathlib

/-!
Verification development for the autoSync repository (WeimengLiu/autoSync).

The repository is a Python file-mirroring tool: `sync_files.py` holds the
per-task sync engine (`FileSyncHandler`, `BatchProcessor`, `FileWriteMonitor`,
`sync_all_files`, `cleanup_empty_dirs`), `cache_manager.py` the SQLite-backed
MD5 cache (`CacheManager`), `task_runner.py` the per-task worker thread, and
`app.py`/`task_manager.py` the admin surface.

This file shallowly embeds the parts of the program that the verified claims
are about:

* a filesystem model (`FS`): a finite map from absolute paths to nodes
  (regular files carrying their byte content and mtime, or symbolic links
  carrying their target), plus the set of existing directories.  Paths are
  modeled as lists of components; `os.path.dirname` is `List.dropLast`,
  `os.path.join` is `List.append`.
* the handler state (`Sys`): the filesystem, the handler's md5 cache view and
  a logical clock used to stamp mtimes of newly written files.
* `FileSyncHandler.sync_file_async` (`syncFileAsync` below) including the
  `initial` size-only fast path, the staged copy through `output_path + ".tmp"`,
  the post-copy verification, the rename, and the symlink branch; fallible
  steps of the staged copy can be made to fail through a `CopyFault` parameter,
  matching the `try`/`except` structure of the source.
* `sync_all_files` + `cleanup_empty_dirs` (full-tree reconciliation),
  `FileSyncHandler.on_deleted` (deletion reconciliation and upward empty-dir
  walk), `FileWriteMonitor.wait_for_completion`, `BatchProcessor`,
  `CacheManager` (both its table semantics and its process-wide singleton
  construction), `TaskRunner._run_task`, and `FileSyncHandler.dispatch`.

MD5 is modeled by an injective digest function (the byte sequence itself):
the program only ever compares digests for equality, and the mmap path and
the chunked path of `get_file_md5_async` compute the same digest of the same
bytes, so the distinction is dropped.
-/

namespace AutoSync

/-- Absolute paths are modeled as lists of path components
(`["out", "a", "b.png"]` stands for `/out/a/b.png`).
`os.path.dirname` is `List.dropLast` and `os.path.join` appends. -/
abbrev FPath := List String

/-- A filesystem node: a regular file with its byte content and mtime, or a
symbolic link with its (absolute) target path. -/
inductive Node where
  | file (content : List Nat) (mtime : Nat) : Node
  | symlink (target : FPath) : Node
deriving DecidableEq, Repr

/-- The filesystem: an association list from paths to nodes (regular files and
symlinks), plus the list of existing directories. -/
structure FS where
  nodes : List (FPath × Node)
  dirs : List FPath
deriving DecidableEq, Repr

namespace FS

/-- Node stored at path `p`, if any (does not follow symlinks). -/
def lookup (fs : FS) (p : FPath) : Option Node :=
  (fs.nodes.find? (fun e => decide (e.1 = p))).map (·.2)

/-- Create or overwrite the node at `p`. -/
def setNode (fs : FS) (p : FPath) (n : Node) : FS :=
  { fs with nodes := (p, n) :: fs.nodes.filter (fun e => decide (e.1 ≠ p)) }

/-- Remove the node at `p` (`os.remove`; removes a symlink itself, does not
follow it). -/
def removeNode (fs : FS) (p : FPath) : FS :=
  { fs with nodes := fs.nodes.filter (fun e => decide (e.1 ≠ p)) }

/-- Register directory `d` if it is not present yet. -/
def addDir (fs : FS) (d : FPath) : FS :=
  if fs.dirs.contains d then fs else { fs with dirs := d :: fs.dirs }

/-- Model of `os.makedirs(d, exist_ok=True)`: registers every nonempty
component-level ancestor of `d`, including `d` itself. -/
def mkdirs (fs : FS) (d : FPath) : FS :=
  (List.range d.length).foldl (fun a i => a.addDir (d.take (i + 1))) fs

/-- Remove directory `d` from the directory list (`os.rmdir`). -/
def removeDir (fs : FS) (d : FPath) : FS :=
  { fs with dirs := fs.dirs.filter (fun x => decide (x ≠ d)) }

/-- Follow a chain of symlinks for at most `n` steps.  Used to model
`os.path.realpath` and the symlink traversal done by `open`/`stat`. -/
def resolveN (fs : FS) : Nat → FPath → FPath
  | 0, p => p
  | n + 1, p =>
    match fs.lookup p with
    | some (.symlink t) => fs.resolveN n t
    | _ => p

/-- Model of `os.path.realpath`: resolve symlinks with enough fuel to follow
any acyclic chain in the filesystem. -/
def realpath (fs : FS) (p : FPath) : FPath :=
  fs.resolveN (fs.nodes.length + 1) p

/-- File content and mtime reached by following symlinks from `p`
(the result of a successful `stat`/`open`). -/
def statFile (fs : FS) (p : FPath) : Option (List Nat × Nat) :=
  match fs.lookup (fs.realpath p) with
  | some (.file c m) => some (c, m)
  | _ => none

/-- Model of `os.path.exists` on file paths: follows symlinks, so a broken
symlink does not exist. -/
def existsF (fs : FS) (p : FPath) : Bool :=
  (fs.statFile p).isSome

/-- Model of `os.path.lexists`: the entry itself exists, broken symlink
included. -/
def lexists (fs : FS) (p : FPath) : Bool :=
  (fs.lookup p).isSome

/-- Model of `os.path.islink`. -/
def islink (fs : FS) (p : FPath) : Bool :=
  match fs.lookup p with
  | some (.symlink _) => true
  | _ => false

/-- Model of `os.path.getsize` (follows symlinks; `none` models the raised
`OSError` when the file is missing). -/
def getsize (fs : FS) (p : FPath) : Option Nat :=
  (fs.statFile p).map (fun cm => cm.1.length)

/-- Model of `os.path.getmtime`. -/
def getmtime (fs : FS) (p : FPath) : Option Nat :=
  (fs.statFile p).map (·.2)

/-- Bytes obtained by reading the file at `p` (follows symlinks). -/
def readFile (fs : FS) (p : FPath) : Option (List Nat) :=
  (fs.statFile p).map (·.1)

/-- Model of `os.path.samefile a b` guarded by the source's
`try`/`except OSError: pass`: true iff both paths resolve to the same
existing regular file; any `OSError` (either side missing) yields false,
which in the source falls through to the removal branch. -/
def sameFile (fs : FS) (a b : FPath) : Bool :=
  (fs.statFile a).isSome && decide (fs.realpath a = fs.realpath b)

/-- Whether directory `d` has a strict descendant among the nodes or the
directories, i.e. whether `os.listdir(d)` would be nonempty.  (On a real
filesystem every deeper entry induces an immediate child of `d`, so testing
strict descendants is equivalent to testing immediate children.) -/
def hasDesc (fs : FS) (d : FPath) : Bool :=
  fs.nodes.any (fun e => decide (d ≠ e.1) && d.isPrefixOf e.1) ||
    fs.dirs.any (fun x => decide (d ≠ x) && d.isPrefixOf x)

end FS

/-- MD5 is modeled by an injective digest of the byte content (the content
itself): the program only compares digests for equality, and both the mmap
path and the 8-KiB-chunk path of `get_file_md5_async` hash the same bytes.
The empty file yields the digest of the empty byte string. -/
def md5Digest (content : List Nat) : List Nat := content

/-- The handler's view of the hash cache.  `FileSyncHandler` always calls
`CacheManager.get_cache`/`update_cache` through its single `cache_manager`
instance, whose `task_id` is fixed, so within one handler the cache behaves
as a map keyed by path.  (The `(file_path, task_id)` keying of the table and
the singleton construction of `CacheManager` are modeled separately below.) -/
structure SyncCache where
  entries : List (FPath × (List Nat × Nat))
deriving DecidableEq, Repr

namespace SyncCache

/-- Stored `(digest, mtime)` of `p`, if any. -/
def get (c : SyncCache) (p : FPath) : Option (List Nat × Nat) :=
  (c.entries.find? (fun e => decide (e.1 = p))).map (·.2)

/-- Upsert the `(digest, mtime)` entry of `p`. -/
def put (c : SyncCache) (p : FPath) (d : List Nat) (m : Nat) : SyncCache :=
  ⟨(p, (d, m)) :: c.entries.filter (fun e => decide (e.1 ≠ p))⟩

end SyncCache

/-- State threaded through one handler's synchronous run: the filesystem, the
hash cache, and a logical clock used to stamp the mtime of newly written
files (each write advances it, so later writes get later mtimes). -/
structure Sys where
  fs : FS
  cache : SyncCache
  clock : Nat
deriving DecidableEq, Repr

/-- Model of `FileSyncHandler.get_file_md5_async` (sync_files.py 165-201):
read the mtime, return the cached digest when the cached mtime matches,
otherwise hash the content (mmap or chunked — same digest) and upsert the
cache.  `none` models the `except` branch returning `None`. -/
def getFileMd5Async (sys : Sys) (p : FPath) : Option (List Nat) × Sys :=
  match sys.fs.getmtime p with
  | none => (none, sys)
  | some mt =>
    match sys.cache.get p with
    | some (d, cm) =>
      if cm = mt then (some d, sys)
      else
        match sys.fs.readFile p with
        | none => (none, sys)
        | some c =>
          (some (md5Digest c), { sys with cache := sys.cache.put p (md5Digest c) mt })
    | none =>
      match sys.fs.readFile p with
      | none => (none, sys)
      | some c =>
        (some (md5Digest c), { sys with cache := sys.cache.put p (md5Digest c) mt })

/-- Handler configuration (`FileSyncHandler.__init__`): source root, mirror
root and the copy-set extension list. -/
structure HandlerCfg where
  inDir : FPath
  outDir : FPath
  exts : List String
deriving DecidableEq, Repr

/-- ASCII lowercasing of a character code, as `str.lower` acts on the ASCII
range (paths and extensions in this development are ASCII). -/
def lowerCode (n : Nat) : Nat :=
  if 65 ≤ n ∧ n ≤ 90 then n + 32 else n

/-- Character codes of a string, lowercased. -/
def strCodesCI (s : String) : List Nat :=
  s.data.map (fun c => lowerCode c.toNat)

/-- Case-insensitive `str.endswith`. -/
def strEndsWithCI (s e : String) : Bool :=
  (strCodesCI e).isSuffixOf (strCodesCI s)

/-- Case-sensitive `str.endswith`. -/
def strEndsWith (s t : String) : Bool :=
  t.data.isSuffixOf s.data

/-- Model of `str.startswith`: character-level prefix. -/
def strStartsWith (s t : String) : Bool :=
  t.data.isPrefixOf s.data

/-- Model of `FileSyncHandler.check_extension`: case-insensitive raw suffix
test of the filename against each configured extension (the source tests
`file_path.lower().endswith(ext.lower())` on the whole path string; for
extensions without path separators this is a test on the last component). -/
def checkExt (exts : List String) (p : FPath) : Bool :=
  exts.any (fun e => strEndsWithCI (p.getLastD "") e)

/-- Model of `FileSyncHandler.get_output_path`:
`Path(output_dir) / Path(input_path).relative_to(input_dir)`.  `relative_to`
is purely lexical and raises `ValueError` (here `none`) when `input_dir` is
not a component-level prefix of the path. -/
def getOutputPath (cfg : HandlerCfg) (p : FPath) : Option FPath :=
  if cfg.inDir.isPrefixOf p then some (cfg.outDir ++ p.drop cfg.inDir.length)
  else none

/-- The temporary staging path `output_path + ".tmp"` (string concatenation
onto the last component). -/
def tmpFPath (out : FPath) : FPath :=
  out.dropLast ++ [out.getLastD "" ++ ".tmp"]

/-- Event kinds flowing into `sync_file_async` (the source passes the strings
"initial", "write_complete", "moved"). -/
inductive EventType where
  | initial
  | write_complete
  | moved
deriving DecidableEq, Repr

/-- Observable steps of one `sync_file_async` call, used to state claims about
its control flow (what is computed, skipped, staged, renamed or logged). -/
inductive SyncStep where
  | sizeFastSkip
  | srcMd5Computed
  | tgtMd5Computed
  | md5EqualSkip
  | stageStart
  | tmpWritten
  | verifyOk
  | renamed
  | linkKept
  | linkCreated
  | tmpCleanup
  | errorLogged (msg : String)
deriving DecidableEq, Repr

/-- Fault injection for the staged copy, mirroring where the source's
`try`/`except` can be entered: the read of the source can raise, the write of
the temp file can raise after writing a partial prefix, the write can be torn
(wrong bytes, caught by verification), or the final `os.rename` can raise.
`noFault` is the fault-free run. -/
inductive CopyFault where
  | noFault
  | failRead
  | failWrite (written : List Nat)
  | corruptWrite (written : List Nat)
  | failRename
deriving DecidableEq, Repr

/-- The `except` cleanup of the staged copy (sync_files.py 275-277):
remove the temp file if `os.path.exists` says it is there (this follows
symlinks, and removes only the entry at the temp path itself). -/
def cleanupTmpFS (fs : FS) (tp : FPath) : FS :=
  if fs.existsF tp then fs.removeNode tp else fs

/-- Model of the staged copy of `sync_file_async` (sync_files.py 242-278):
write the source bytes into `output_path + ".tmp"`, verify size and digest of
the temp file without consulting the cache, then unlink an existing output
and rename the temp over it, updating the cache for the output path.
`srcMd5` is the value of the local `source_md5`: `none` models the branch in
which it was never assigned, where evaluating it raises `UnboundLocalError`.
Any raise removes the temp file and is logged by the outer handler. -/
def stageCopy (sys : Sys) (inp out : FPath) (srcMd5 : Option (List Nat))
    (srcSize : Nat) (fault : CopyFault) (tr : List SyncStep) :
    Sys × List SyncStep :=
  let tp := tmpFPath out
  let wp := sys.fs.realpath tp
  match fault with
  | .failRead =>
    let fs1 := sys.fs.setNode wp (.file [] sys.clock)
    ({ sys with fs := cleanupTmpFS fs1 tp, clock := sys.clock + 1 },
      tr ++ [.stageStart, .tmpCleanup, .errorLogged "read failed"])
  | .failWrite bs =>
    let fs1 := sys.fs.setNode wp (.file bs sys.clock)
    ({ sys with fs := cleanupTmpFS fs1 tp, clock := sys.clock + 1 },
      tr ++ [.stageStart, .tmpCleanup, .errorLogged "write failed"])
  | f =>
    match sys.fs.readFile inp with
    | none =>
      let fs1 := sys.fs.setNode wp (.file [] sys.clock)
      ({ sys with fs := cleanupTmpFS fs1 tp, clock := sys.clock + 1 },
        tr ++ [.stageStart, .tmpCleanup, .errorLogged "read failed"])
    | some src =>
      let bytes := match f with | .corruptWrite bs => bs | _ => src
      let fs1 := sys.fs.setNode wp (.file bytes sys.clock)
      let sys1 : Sys := { sys with fs := fs1, clock := sys.clock + 1 }
      let tr := tr ++ [.stageStart, .tmpWritten]
      match fs1.getsize tp with
      | none =>
        ({ sys1 with fs := cleanupTmpFS fs1 tp },
          tr ++ [.tmpCleanup, .errorLogged "getsize failed"])
      | some tmpSize =>
        if tmpSize ≠ srcSize then
          ({ sys1 with fs := cleanupTmpFS fs1 tp },
            tr ++ [.tmpCleanup, .errorLogged "verify failed"])
        else
          match srcMd5 with
          | none =>
            ({ sys1 with fs := cleanupTmpFS fs1 tp },
              tr ++ [.tmpCleanup, .errorLogged "UnboundLocalError source_md5"])
          | some sm =>
            let tmpMd5 := md5Digest (match fs1.readFile tp with
              | some c => c
              | none => [])
            if tmpMd5 ≠ sm then
              ({ sys1 with fs := cleanupTmpFS fs1 tp },
                tr ++ [.tmpCleanup, .errorLogged "verify failed"])
            else
              let tr := tr ++ [.verifyOk]
              let fs2 := if fs1.existsF out then fs1.removeNode out else fs1
              match f with
              | .failRename =>
                ({ sys1 with fs := cleanupTmpFS fs2 tp },
                  tr ++ [.tmpCleanup, .errorLogged "rename failed"])
              | _ =>
                match fs2.lookup tp with
                | none =>
                  ({ sys1 with fs := cleanupTmpFS fs2 tp },
                    tr ++ [.tmpCleanup, .errorLogged "rename failed"])
                | some n =>
                  let fs3 := (fs2.removeNode tp).setNode out n
                  let sys2 : Sys := { sys1 with fs := fs3 }
                  let sys3 : Sys :=
                    match fs3.getmtime out with
                    | some m => { sys2 with cache := sys2.cache.put out tmpMd5 m }
                    | none => sys2
                  (sys3, tr ++ [.renamed])

/-- Model of the copy branch of `sync_file_async` (sync_files.py 216-281):
the `initial` size-only fast path, otherwise digest of the source, the
equal-digest skip when an output of equal size is present, then the staged
copy.  When `kind = initial` and the output exists with a different size the
source falls through to the staged copy with `source_md5` never assigned. -/
def copyBranch (sys : Sys) (inp out : FPath) (evt : EventType)
    (fault : CopyFault) : Sys × List SyncStep :=
  match sys.fs.getsize inp with
  | none => (sys, [.errorLogged "getsize failed"])
  | some srcSize =>
    if evt = .initial ∧ sys.fs.existsF out then
      match sys.fs.getsize out with
      | none => (sys, [.errorLogged "getsize failed"])
      | some tgtSize =>
        if tgtSize = srcSize then (sys, [.sizeFastSkip])
        else stageCopy sys inp out none srcSize fault []
    else
      match getFileMd5Async sys inp with
      | (none, sys1) => (sys1, [.errorLogged "source md5 failed"])
      | (some sm, sys1) =>
        let tr : List SyncStep := [.srcMd5Computed]
        if sys1.fs.existsF out then
          match sys1.fs.getsize out with
          | none => (sys1, tr ++ [.errorLogged "getsize failed"])
          | some tgtSize =>
            if tgtSize = srcSize then
              match getFileMd5Async sys1 out with
              | (some tm, sys2) =>
                if tm = sm then (sys2, tr ++ [.tgtMd5Computed, .md5EqualSkip])
                else stageCopy sys2 inp out (some sm) srcSize fault
                  (tr ++ [.tgtMd5Computed])
              | (none, sys2) =>
                stageCopy sys2 inp out (some sm) srcSize fault
                  (tr ++ [.tgtMd5Computed])
            else stageCopy sys1 inp out (some sm) srcSize fault tr
        else stageCopy sys1 inp out (some sm) srcSize fault tr

/-- Model of the symlink branch of `sync_file_async` (sync_files.py 283-295):
keep an existing symlink that already resolves to the source, otherwise
remove whatever exists and link; `os.symlink` onto a broken symlink (which
`os.path.exists` reports as absent but which still occupies the path) raises
`FileExistsError`, caught and logged by the outer handler. -/
def linkBranch (sys : Sys) (inp out : FPath) : Sys × List SyncStep :=
  if sys.fs.existsF out then
    if sys.fs.islink out && sys.fs.sameFile (sys.fs.realpath out) inp then
      (sys, [.linkKept])
    else
      let fs1 := sys.fs.removeNode out
      ({ sys with fs := fs1.setNode out (.symlink inp) }, [.linkCreated])
  else
    if sys.fs.lexists out then (sys, [.errorLogged "FileExistsError"])
    else ({ sys with fs := sys.fs.setNode out (.symlink inp) }, [.linkCreated])

/-- Model of `FileSyncHandler.sync_file_async` (sync_files.py 203-300) for one
call: return if the source is gone, compute the output path (`none` models
the raised `ValueError`), create parent directories, then the copy branch for
copy-set suffixes and the symlink branch otherwise.  The `processing_files`
reentry guard is the identity in this sequential model. -/
def syncFileAsync (cfg : HandlerCfg) (sys : Sys) (inp : FPath) (evt : EventType)
    (fault : CopyFault) : Sys × List SyncStep :=
  if sys.fs.existsF inp then
    match getOutputPath cfg inp with
    | none => (sys, [.errorLogged "relative_to failed"])
    | some out =>
      let sys1 : Sys := { sys with fs := sys.fs.mkdirs out.dropLast }
      if checkExt cfg.exts inp then copyBranch sys1 inp out evt fault
      else linkBranch sys1 inp out
  else (sys, [])

/-- The files the `os.walk(input_dir)` of `sync_all_files` enumerates: every
node (regular file or symlink) strictly below `input_dir`, in filesystem
order.  The walk happens over the source subtree, which the run does not
modify. -/
def sourceFilesUnder (fs : FS) (inDir : FPath) : List FPath :=
  (fs.nodes.map (·.1)).filter (fun p => inDir.isPrefixOf p && decide (p ≠ inDir))

/-- Model of `sync_all_files` (sync_files.py 496-537): walk the source tree
and call `sync_file_async(path, "initial")` on every file.  (The collection
of pre-existing output symlinks at lines 500-506 is dead state and progress
logging has no filesystem effect.) -/
def syncAllFiles (cfg : HandlerCfg) (sys : Sys) : Sys :=
  (sourceFilesUnder sys.fs cfg.inDir).foldl
    (fun s p => (syncFileAsync cfg s p .initial .noFault).1) sys

/-- Insertion into a list kept sorted by decreasing path length. -/
def insertByLen (d : FPath) : List FPath → List FPath
  | [] => [d]
  | x :: xs => if x.length ≤ d.length then d :: x :: xs else x :: insertByLen d xs

/-- Sort paths by decreasing length (deepest first), the order in which the
bottom-up `os.walk(directory, topdown=False)` of `cleanup_empty_dirs` visits
directories. -/
def sortByLenDesc (l : List FPath) : List FPath :=
  l.foldr insertByLen []

/-- Model of `cleanup_empty_dirs` (sync_files.py 539-549): visit every
directory strictly below `root` bottom-up and remove it if it is empty.
Only directories are ever removed. -/
def cleanupEmptyDirs (fs : FS) (root : FPath) : FS :=
  (sortByLenDesc (fs.dirs.filter
      (fun d => root.isPrefixOf d && decide (d ≠ root)))).foldl
    (fun a d => if a.hasDesc d then a else a.removeDir d) fs

/-- Full-tree reconciliation as the claims use it: `sync_all_files` followed
by `cleanup_empty_dirs(output_dir)` (task_runner.py 51-52, app.py 62-63). -/
def fullReconcile (cfg : HandlerCfg) (sys : Sys) : Sys :=
  let s1 := syncAllFiles cfg sys
  { s1 with fs := cleanupEmptyDirs s1.fs cfg.outDir }

/-- Upward empty-directory walk of `on_deleted` (sync_files.py 420-431):
`while output_dir and output_dir.startswith(self.output_dir)`, remove when
`os.listdir` is empty, step to `os.path.dirname`, `break` on the first
non-empty directory.  `os.listdir` on a missing directory raises (caught by
the surrounding `except`), ending the walk.  Every path the loop visits is a
`dirname`-ancestor of the removed output path, and on those the string test
`startswith(output_dir)` agrees with the component-prefix test used here. -/
def cleanupUp (outRoot : FPath) (fs : FS) (d : FPath) : FS :=
  if d ≠ [] ∧ outRoot.isPrefixOf d then
    if d ∈ fs.dirs then
      if fs.hasDesc d then fs
      else cleanupUp outRoot (fs.removeDir d) d.dropLast
    else fs
  else fs
termination_by d.length
decreasing_by
  rename_i h1 _ _
  have : d ≠ [] := h1.1
  simpa [List.length_dropLast] using Nat.sub_lt (List.length_pos.2 this) Nat.one_pos

/-- Model of `FileSyncHandler.on_deleted` (sync_files.py 400-433): compute the
mirror counterpart, remove it when `os.path.lexists` reports it (so a broken
symlink still counts as present), then walk up removing newly empty ancestor
directories inside `output_dir`. -/
def onDeleted (cfg : HandlerCfg) (fs : FS) (src : FPath) : FS :=
  match getOutputPath cfg src with
  | none => fs
  | some out =>
    let fs1 := if fs.lexists out then fs.removeNode out else fs
    cleanupUp cfg.outDir fs1 out.dropLast

/-! ### FileWriteMonitor

Time is modeled in ticks of `check_interval = 0.5 s`; `stable_duration = 1.0 s`
is 2 ticks and the `30 s` bound is 60 ticks.  Each loop iteration happens at a
single instant `t` and every `await asyncio.sleep(check_interval)` advances
`t` by one tick.  `obs t` is the `(size, mtime)` the filesystem would report
at tick `t`, `none` when `os.path.exists` is false. -/

/-- Number of ticks of stability `wait_for_completion` requires. -/
def stableTicks : Nat := 2

/-- The `30 s` wait bound of `wait_for_completion`, in ticks. -/
def maxWaitTicks : Nat := 60

/-- Mutable state of `FileWriteMonitor`: `last_size`, `last_mtime`,
`last_stable_time` (the source initializes all three to `0` and uses `0` as
the "not yet stable" sentinel). -/
structure MonState where
  lastSize : Nat
  lastMtime : Nat
  lastStableTime : Nat
deriving DecidableEq, Repr

/-- One-for-one translation of the polling loop of
`FileWriteMonitor.wait_for_completion` (sync_files.py 98-136).  `fuel` bounds
how many iterations we unfold: `some b` means the call returned `b` within
that many iterations, `none` means it is still looping.  Note the source's
`continue` on a missing path jumps back to the top of the loop, skipping the
30-second timeout check. -/
def waitLoop (obs : Nat → Option (Nat × Nat)) (startTime : Nat) :
    Nat → MonState → Nat → Option Bool
  | 0, _, _ => none
  | fuel + 1, st, t =>
    let cont := fun (st' : MonState) =>
      if t - startTime > maxWaitTicks then some false
      else waitLoop obs startTime fuel st' (t + 1)
    match obs t with
    | none => waitLoop obs startTime fuel st (t + 1)
    | some (sz, mt) =>
      if sz = st.lastSize ∧ mt = st.lastMtime then
        if st.lastStableTime = 0 then cont ⟨sz, mt, t⟩
        else if t - st.lastStableTime ≥ stableTicks then some true
        else cont ⟨sz, mt, st.lastStableTime⟩
      else cont ⟨sz, mt, 0⟩

/-- Model of `FileWriteMonitor.wait_for_completion`: start polling at
`startTime` with the zero-initialized monitor state. -/
def waitForCompletion (obs : Nat → Option (Nat × Nat)) (startTime fuel : Nat) :
    Option Bool :=
  waitLoop obs startTime fuel ⟨0, 0, 0⟩ startTime

/-! ### BatchProcessor -/

/-- Default `BATCH_SIZE` (sync_files.py 43). -/
def BATCH_SIZE : Nat := 100

/-- Default `BATCH_INTERVAL` in seconds (sync_files.py 44). -/
def BATCH_INTERVAL : Nat := 1

/-- State of `BatchProcessor`: the FIFO work queue, `last_process_time`, and
the `processing` reentry flag that excludes concurrent drains. -/
structure BPState where
  queue : List (FPath × EventType)
  lastProcessTime : Nat
  processing : Bool
deriving DecidableEq, Repr

/-- Model of `BatchProcessor.process_batch` (sync_files.py 69-85): return
immediately when a drain is already running or the queue is empty; otherwise
pop at most `batchSize` items from the front, issue them concurrently via
`asyncio.gather`, and set `last_process_time` (only when something was
drained).  The drained items are returned alongside the new state. -/
def processBatch (batchSize : Nat) (now : Nat) (st : BPState) :
    BPState × List (FPath × EventType) :=
  if st.processing || st.queue.isEmpty then (st, [])
  else
    let tasks := st.queue.take batchSize
    let lp := if tasks.isEmpty then st.lastProcessTime else now
    ({ queue := st.queue.drop batchSize, lastProcessTime := lp,
       processing := false }, tasks)

/-- Model of `BatchProcessor.process_batch_if_needed` (sync_files.py 62-67):
drain when the queue has reached `batchSize`, or is nonempty and at least
`interval` has passed since the last drain. -/
def processBatchIfNeeded (batchSize interval now : Nat) (st : BPState) :
    BPState × List (FPath × EventType) :=
  if st.queue.length ≥ batchSize ||
      (!st.queue.isEmpty && now - st.lastProcessTime ≥ interval) then
    processBatch batchSize now st
  else (st, [])

/-- Model of `BatchProcessor.add_task` (sync_files.py 57-60): append at the
tail, then check whether to drain. -/
def addTask (batchSize interval now : Nat) (st : BPState)
    (item : FPath × EventType) : BPState × List (FPath × EventType) :=
  processBatchIfNeeded batchSize interval now
    { st with queue := st.queue ++ [item] }

/-! ### CacheManager -/

/-- One row of the `file_cache` table (cache_manager.py 13-21). -/
structure CacheRow where
  md5Hash : String
  mtime : Nat
  lastCheck : Nat
deriving DecidableEq, Repr

/-- The `file_cache` table: rows keyed by the primary key
`(file_path, task_id)`. -/
structure CacheDB where
  rows : List ((String × String) × CacheRow)
deriving DecidableEq, Repr

/-- Where a database fault, if any, strikes inside one cache call. -/
inductive DbFault where
  | ok
  | queryFail
  | commitFail
deriving DecidableEq, Repr

/-- Row stored under `(path, tid)`, if any. -/
def CacheDB.find (db : CacheDB) (path tid : String) : Option CacheRow :=
  (db.rows.find? (fun e => decide (e.1 = (path, tid)))).map (·.2)

/-- Upsert the row under `(path, tid)`. -/
def CacheDB.upsert (db : CacheDB) (path tid : String) (r : CacheRow) : CacheDB :=
  ⟨((path, tid), r) :: db.rows.filter (fun e => decide (e.1 ≠ (path, tid)))⟩

/-- Model of `CacheManager.get_cache` (cache_manager.py 65-83): look up the
row keyed by `(file_path, task_id)`; on a hit refresh `last_check` and return
`(md5, mtime)`; a missing row returns `(None, None)`; any exception (query or
commit) is caught and also returns `(None, None)`, the session being closed
uncommitted so the stored table is unchanged. -/
def getCacheDb (db : CacheDB) (tid path : String) (now : Nat) (f : DbFault) :
    (Option String × Option Nat) × CacheDB :=
  match f with
  | .queryFail => ((none, none), db)
  | _ =>
    match db.find path tid with
    | none => ((none, none), db)
    | some r =>
      match f with
      | .commitFail => ((none, none), db)
      | _ => ((some r.md5Hash, some r.mtime),
          db.upsert path tid { r with lastCheck := now })

/-- Model of `CacheManager.update_cache` (cache_manager.py 85-113): upsert the
row keyed by `(file_path, task_id)` and commit; any exception is caught,
logged and the session rolled back, leaving the stored table unchanged.  The
function never raises. -/
def updateCacheDb (db : CacheDB) (tid path : String) (md5 : String)
    (mtime now : Nat) (f : DbFault) : CacheDB :=
  match f with
  | .ok => db.upsert path tid ⟨md5, mtime, now⟩
  | _ => db

/-- Process-wide singleton state of `CacheManager` (cache_manager.py 23-38):
`__new__` keeps a single `_instance`, and `__init__` assigns `self.task_id`
only when the attribute is not present yet, i.e. only for the first
construction in the process. -/
structure CMGlobal where
  instanceTaskId : Option String
deriving DecidableEq, Repr

/-- Model of `CacheManager(task_id, logger)` construction: returns the updated
process state together with the `task_id` the obtained manager instance
actually carries — which every later `get_cache`/`update_cache` of that
handler will key by. -/
def cacheManagerConstruct (g : CMGlobal) (tid : String) : CMGlobal × String :=
  match g.instanceTaskId with
  | none => ({ instanceTaskId := some tid }, tid)
  | some t => (g, t)

/-! ### TaskRunner -/

/-- Observable actions of the per-task worker thread. -/
inductive RunAction where
  | makeOutputDir
  | coroutineCreated
  | syncInitial (p : FPath)
  | cleanupDirs
  | watchStart
  | watchLoopEnter
deriving DecidableEq, Repr

/-- Actions the body of `sync_all_files` performs when it actually runs (one
`sync_file_async(path, "initial")` per source file); this is what
`asyncio.run(sync_all_files(...))` in `app.py` line 62 executes. -/
def syncAllFilesActions (files : List FPath) : List RunAction :=
  files.map RunAction.syncInitial

/-- Model of `TaskRunner._run_task` (task_runner.py 40-92) up to entering the
endless watch loop.  Line 51 is `sync_all_files(self.input_dir, ...)` with no
`await` and no `asyncio.run`: calling an `async def` in CPython only
allocates a coroutine object, which is immediately discarded, so none of
`syncAllFilesActions` runs.  Then `cleanup_empty_dirs` (a plain function)
runs, the watch is installed, and the worker enters the `while self._running`
event loop. -/
def runTaskActions (files : List FPath) : List RunAction :=
  let _ := syncAllFilesActions files
  [.makeOutputDir, .coroutineCreated, .cleanupDirs, .watchStart, .watchLoopEnter]

/-! ### Event dispatch path containment (string level)

`FileSyncHandler.dispatch` (sync_files.py 302-312) filters event paths with
the *string* test `p.startswith(self.input_dir)`, and
`FileSyncHandler.get_output_path` later applies the *component* operation
`Path(input_path).relative_to(self.input_dir)`.  These two are modeled here
on raw strings, splitting on `/` for the component view. -/

/-- Split a character list on a separator (the behavior of `str.split`). -/
def splitChars (sep : Char) : List Char → List (List Char)
  | [] => [[]]
  | c :: cs =>
    let r := splitChars sep cs
    if c = sep then [] :: r
    else (c :: r.headD []) :: r.tail

/-- Components of an absolute path string (split on `/`). -/
def strComponents (s : String) : List String :=
  (splitChars '/' s.data).map (fun l => ⟨l⟩)

/-- The `valid_paths` filter of `dispatch`: a raw string test
`p.startswith(self.input_dir)`. -/
def dispatchValidPaths (inputDir : String) (paths : List String) : List String :=
  paths.filter (fun p => strStartsWith p inputDir)

/-- Whether `dispatch` proceeds to process the event (some path passed the
string test and the event is not a directory event). -/
def dispatchProcesses (inputDir : String) (paths : List String)
    (isDir : Bool) : Bool :=
  !(dispatchValidPaths inputDir paths).isEmpty && !isDir

/-- Model of `Path(p).relative_to(base)`: component-level, raising
(`none`) when `base`'s components are not a prefix of `p`'s. -/
def strRelativeTo (p base : String) : Option (List String) :=
  if (strComponents base).isPrefixOf (strComponents p) then
    some ((strComponents p).drop (strComponents base).length)
  else none

/-- Component-level containment: what a path-aware "is inside the watched
tree" test would be. -/
def strIsPathInside (p base : String) : Bool :=
  (strComponents base).isPrefixOf (strComponents p)

/-- Whether a node is a regular file. -/
def Node.isFile : Node → Bool
  | .file _ _ => true
  | .symlink _ => false

/-! ### Concrete fixtures used by counterexamples and witnesses -/

/-- A task mirroring `/in` into `/out`, copy set `{png}`. -/
def cfgPng : HandlerCfg := ⟨["in"], ["out"], ["png"]⟩

/-- Fresh state: one copy-set source file, one non-copy-set source file, an
empty mirror and an empty cache. -/
def sysFresh : Sys :=
  ⟨⟨[(["in", "a.png"], .file [1, 2] 0), (["in", "b.mkv"], .file [7] 0)],
    [["in"], ["out"]]⟩, ⟨[]⟩, 10⟩

/-- Mirror already holds `/out/a.png` with the same size as the source but
different content. -/
def sysSameSize : Sys :=
  ⟨⟨[(["in", "a.png"], .file [1] 0), (["out", "a.png"], .file [2] 5)],
    [["in"], ["out"]]⟩, ⟨[]⟩, 10⟩

/-- Mirror already holds `/out/a.png` with a size different from the source's
(source 2 bytes, target 1 byte). -/
def sysSizeDiff : Sys :=
  ⟨⟨[(["in", "a.png"], .file [1, 2] 0), (["out", "a.png"], .file [9] 5)],
    [["in"], ["out"]]⟩, ⟨[]⟩, 10⟩

/-- Mirror holds `/out/a.png` with prior content `[2]`, different from the
source's `[1]`. -/
def sysPrior : Sys :=
  ⟨⟨[(["in", "a.png"], .file [1] 0), (["out", "a.png"], .file [2] 5)],
    [["in"], ["out"]]⟩, ⟨[]⟩, 10⟩

/-- Mirror tree for the deletion walk: `/out/a/b.png` with directories `/out`
and `/out/a`. -/
def fsDelTree : FS :=
  ⟨[(["out", "a", "b.png"], .file [1] 0)], [["out"], ["out", "a"]]⟩

/-- Invariant of the full-tree reconciliation fold, over the initial
filesystem `fs0` and the list `done` of already-processed source files:
nothing outside the mirror subtree has changed; every processed copy-set file
is mirrored byte-identically and every other processed file as a symlink;
every node in the mirror subtree is the output of a processed file (so no
stray `.tmp` files remain); and every cache entry for a source path with a
matching mtime stores the digest of that file's content. -/
def ReconInv (cfg : HandlerCfg) (fs0 : FS) (s : Sys) (done : List FPath) : Prop :=
  (∀ p, ¬ cfg.outDir <+: p → s.fs.lookup p = fs0.lookup p) ∧
  (∀ f ∈ done,
    (checkExt cfg.exts f = true →
      ∃ c m m', fs0.lookup f = some (.file c m) ∧
        s.fs.lookup (cfg.outDir ++ f.drop cfg.inDir.length) =
          some (.file c m')) ∧
    (checkExt cfg.exts f = false →
      s.fs.lookup (cfg.outDir ++ f.drop cfg.inDir.length) =
        some (.symlink f))) ∧
  (∀ p, cfg.outDir <+: p → s.fs.lookup p ≠ none →
    ∃ f ∈ done, p = cfg.outDir ++ f.drop cfg.inDir.length) ∧
  (∀ p d m, cfg.inDir <+: p → s.cache.get p = some (d, m) →
    ∀ c mt, fs0.statFile p = some (c, mt) → m = mt → d = md5Digest c)

/-!
## Lemmas
-/

/-- Helper for association-list lookups: filtering out key `p` does not change
a lookup of a different key `q`. -/
theorem find?_filter_ne {α β : Type} [DecidableEq α] {l : List (α × β)} {p q : α}
    (h : q ≠ p) :
    (l.filter (fun e => decide (e.1 ≠ p))).find? (fun e => decide (e.1 = q)) =
      l.find? (fun e => decide (e.1 = q)) := by
  rw [List.find?_filter]
  have hfun : (fun (e : α × β) =>
        decide (decide (e.1 ≠ p) = true ∧ decide (e.1 = q) = true)) =
      fun e => decide (e.1 = q) := by
    funext e
    by_cases he : e.1 = q
    · simp [he, h]
    · simp [he]
  rw [hfun]

namespace FS

@[simp] theorem lookup_setNode_self (fs : FS) (p : FPath) (n : Node) :
    (fs.setNode p n).lookup p = some n := by
  simp [lookup, setNode, List.find?]

theorem lookup_setNode_ne (fs : FS) {p q : FPath} (n : Node) (h : q ≠ p) :
    (fs.setNode p n).lookup q = fs.lookup q := by
  have : decide (p = q) = false := by simp; exact fun e => h e.symm
  simp only [lookup, setNode, List.find?, this, find?_filter_ne h]

@[simp] theorem lookup_removeNode_self (fs : FS) (p : FPath) :
    (fs.removeNode p).lookup p = none := by
  simp only [lookup, removeNode]
  induction fs.nodes with
  | nil => rfl
  | cons a l ih =>
    by_cases hap : a.1 = p
    · have : decide (a.1 ≠ p) = false := by simp [hap]
      simp only [List.filter_cons, this]
      simp only [Bool.false_eq_true, if_false]
      exact ih
    · have h1 : decide (a.1 ≠ p) = true := by simp [hap]
      have h2 : decide (a.1 = p) = false := by simp [hap]
      simp only [List.filter_cons, h1]
      simp only [List.find?, h2, if_neg, Bool.false_eq_true, if_false]
      exact ih

theorem lookup_removeNode_ne (fs : FS) {p q : FPath} (h : q ≠ p) :
    (fs.removeNode p).lookup q = fs.lookup q := by
  simp only [lookup, removeNode, find?_filter_ne h]

@[simp] theorem lookup_addDir (fs : FS) (d : FPath) (p : FPath) :
    (fs.addDir d).lookup p = fs.lookup p := by
  unfold addDir; split <;> rfl

@[simp] theorem nodes_addDir (fs : FS) (d : FPath) :
    (fs.addDir d).nodes = fs.nodes := by
  unfold addDir; split <;> rfl

@[simp] theorem nodes_mkdirs (fs : FS) (d : FPath) :
    (fs.mkdirs d).nodes = fs.nodes := by
  unfold mkdirs
  generalize List.range d.length = is
  induction is generalizing fs with
  | nil => rfl
  | cons i is ih => simpa using ih (fs.addDir (d.take (i + 1)))

@[simp] theorem nodes_removeDir (fs : FS) (d : FPath) :
    (fs.removeDir d).nodes = fs.nodes := rfl

/-- Every stat-like operation of the model reads only the `nodes` field, so
two filesystems with equal nodes agree on all of them. -/
theorem lookup_congr {fs1 fs2 : FS} (h : fs1.nodes = fs2.nodes) (p : FPath) :
    fs1.lookup p = fs2.lookup p := by
  unfold lookup; rw [h]

theorem resolveN_congr {fs1 fs2 : FS} (h : fs1.nodes = fs2.nodes) :
    ∀ n p, fs1.resolveN n p = fs2.resolveN n p := by
  intro n
  induction n with
  | zero => intro p; rfl
  | succ n ih =>
    intro p
    unfold resolveN
    rw [lookup_congr h]
    cases fs2.lookup p with
    | none => rfl
    | some nd => cases nd with
      | file c m => rfl
      | symlink t => exact ih t

theorem realpath_congr {fs1 fs2 : FS} (h : fs1.nodes = fs2.nodes) (p : FPath) :
    fs1.realpath p = fs2.realpath p := by
  unfold realpath; rw [h, resolveN_congr h]

theorem statFile_congr {fs1 fs2 : FS} (h : fs1.nodes = fs2.nodes) (p : FPath) :
    fs1.statFile p = fs2.statFile p := by
  unfold statFile; rw [realpath_congr h, lookup_congr h]

@[simp] theorem statFile_mkdirs (fs : FS) (d : FPath) (p : FPath) :
    (fs.mkdirs d).statFile p = fs.statFile p :=
  statFile_congr (nodes_mkdirs fs d) p

@[simp] theorem lookup_mkdirs (fs : FS) (d : FPath) (p : FPath) :
    (fs.mkdirs d).lookup p = fs.lookup p :=
  lookup_congr (nodes_mkdirs fs d) p

@[simp] theorem realpath_mkdirs (fs : FS) (d : FPath) (p : FPath) :
    (fs.mkdirs d).realpath p = fs.realpath p :=
  realpath_congr (nodes_mkdirs fs d) p

@[simp] theorem lookup_removeDir (fs : FS) (d : FPath) (p : FPath) :
    (fs.removeDir d).lookup p = fs.lookup p := rfl

@[simp] theorem readFile_mkdirs (fs : FS) (d : FPath) (p : FPath) :
    (fs.mkdirs d).readFile p = fs.readFile p := by
  unfold readFile; rw [statFile_mkdirs]

@[simp] theorem getsize_mkdirs (fs : FS) (d : FPath) (p : FPath) :
    (fs.mkdirs d).getsize p = fs.getsize p := by
  unfold getsize; rw [statFile_mkdirs]

@[simp] theorem existsF_mkdirs (fs : FS) (d : FPath) (p : FPath) :
    (fs.mkdirs d).existsF p = fs.existsF p := by
  unfold existsF; rw [statFile_mkdirs]

/-- A path with no entry resolves to itself. -/
theorem resolveN_none {fs : FS} {p : FPath} (h : fs.lookup p = none) :
    ∀ n, fs.resolveN n p = p := by
  intro n
  cases n with
  | zero => rfl
  | succ n => unfold resolveN; rw [h]

theorem realpath_none {fs : FS} {p : FPath} (h : fs.lookup p = none) :
    fs.realpath p = p :=
  resolveN_none h _

/-- A regular file resolves to itself. -/
theorem resolveN_file {fs : FS} {p : FPath} {c m}
    (h : fs.lookup p = some (.file c m)) : ∀ n, fs.resolveN n p = p := by
  intro n
  cases n with
  | zero => rfl
  | succ n => unfold resolveN; rw [h]

theorem realpath_file {fs : FS} {p : FPath} {c m}
    (h : fs.lookup p = some (.file c m)) : fs.realpath p = p :=
  resolveN_file h _

theorem statFile_of_file {fs : FS} {p : FPath} {c m}
    (h : fs.lookup p = some (.file c m)) : fs.statFile p = some (c, m) := by
  unfold statFile; rw [realpath_file h, h]

theorem statFile_none_of_lookup_none {fs : FS} {p : FPath}
    (h : fs.lookup p = none) : fs.statFile p = none := by
  unfold statFile; rw [realpath_none h, h]

theorem existsF_of_file {fs : FS} {p : FPath} {c m}
    (h : fs.lookup p = some (.file c m)) : fs.existsF p = true := by
  unfold existsF; rw [statFile_of_file h]; rfl

theorem existsF_false_of_lookup_none {fs : FS} {p : FPath}
    (h : fs.lookup p = none) : fs.existsF p = false := by
  unfold existsF; rw [statFile_none_of_lookup_none h]; rfl

theorem getsize_of_file {fs : FS} {p : FPath} {c m}
    (h : fs.lookup p = some (.file c m)) : fs.getsize p = some c.length := by
  unfold getsize; rw [statFile_of_file h]; rfl

theorem readFile_of_file {fs : FS} {p : FPath} {c m}
    (h : fs.lookup p = some (.file c m)) : fs.readFile p = some c := by
  unfold readFile; rw [statFile_of_file h]; rfl

end FS

namespace SyncCache

@[simp] theorem get_put_self (c : SyncCache) (p : FPath) (d : List Nat) (m : Nat) :
    (c.put p d m).get p = some (d, m) := by
  simp [get, put, List.find?]

theorem get_put_ne (c : SyncCache) {p q : FPath} (d : List Nat) (m : Nat)
    (h : q ≠ p) : (c.put p d m).get q = c.get q := by
  have hd : decide (p = q) = false := by simp; exact fun e => h e.symm
  simp only [get, put, List.find?, hd, find?_filter_ne h]

end SyncCache

@[simp] theorem cleanupEmptyDirs_lookup (fs : FS) (root : FPath) (p : FPath) :
    (cleanupEmptyDirs fs root).lookup p = fs.lookup p := by
  unfold cleanupEmptyDirs
  generalize sortByLenDesc (fs.dirs.filter
      (fun d => root.isPrefixOf d && decide (d ≠ root))) = ds
  induction ds generalizing fs with
  | nil => rfl
  | cons d ds ih =>
    simp only [List.foldl_cons]
    by_cases h : fs.hasDesc d
    · simpa [h] using ih fs
    · simpa [h] using ih (fs.removeDir d)

/-- Hashing never touches the filesystem: `get_file_md5_async` changes at
most the cache. -/
theorem getFileMd5Async_fs (sys : Sys) (p : FPath) :
    (getFileMd5Async sys p).2.fs = sys.fs := by
  unfold getFileMd5Async
  repeat' split
  all_goals rfl

/-- When the file exists and every matching cache entry is truthful, the
digest procedure returns the digest of the current content. -/
theorem getFileMd5Async_eq_digest (sys : Sys) (p : FPath) {c : List Nat}
    {mt : Nat} (hstat : sys.fs.statFile p = some (c, mt))
    (hcache : ∀ d m, sys.cache.get p = some (d, m) → m = mt → d = md5Digest c) :
    (getFileMd5Async sys p).1 = some (md5Digest c) := by
  have hmt : sys.fs.getmtime p = some mt := by
    unfold FS.getmtime; rw [hstat]; rfl
  have hrd : sys.fs.readFile p = some c := by
    unfold FS.readFile; rw [hstat]; rfl
  unfold getFileMd5Async
  rw [hmt]
  cases hg : sys.cache.get p with
  | none => simp only [hrd]
  | some dm =>
    obtain ⟨d, cm⟩ := dm
    by_cases hcm : cm = mt
    · simp only [if_pos hcm]
      rw [hcache d cm hg hcm]
    · simp only [if_neg hcm, hrd]

/-- The temporary path differs from the output path: its last component
carries the extra `".tmp"`. -/
theorem tmpFPath_ne (out : FPath) : tmpFPath out ≠ out := by
  intro h
  have hlast : (tmpFPath out).getLastD "" = out.getLastD "" ++ ".tmp" :=
    List.getLastD_concat _ _ _
  rw [h] at hlast
  have := congrArg String.length hlast
  rw [String.length_append] at this
  have hpos : 0 < ".tmp".length := by decide
  omega

/-- Full characterization of the digest procedure on an existing file with a
truthful cache: the digest of the current content is returned, the
filesystem is untouched, and the cache either stays or receives exactly the
truthful entry. -/
theorem getFileMd5Async_spec (sys : Sys) (p : FPath) {c : List Nat} {mt : Nat}
    (hstat : sys.fs.statFile p = some (c, mt))
    (hcache : ∀ d m, sys.cache.get p = some (d, m) → m = mt → d = md5Digest c) :
    (getFileMd5Async sys p).1 = some (md5Digest c) ∧
    (getFileMd5Async sys p).2.fs = sys.fs ∧
    ((getFileMd5Async sys p).2.cache = sys.cache ∨
      (getFileMd5Async sys p).2.cache = sys.cache.put p (md5Digest c) mt) := by
  have hmt : sys.fs.getmtime p = some mt := by
    unfold FS.getmtime; rw [hstat]; rfl
  have hrd : sys.fs.readFile p = some c := by
    unfold FS.readFile; rw [hstat]; rfl
  unfold getFileMd5Async
  rw [hmt]
  cases hg : sys.cache.get p with
  | none =>
    dsimp only
    rw [hrd]
    exact ⟨rfl, rfl, Or.inr rfl⟩
  | some dm =>
    obtain ⟨d, cm⟩ := dm
    by_cases hcm : cm = mt
    · dsimp only
      rw [if_pos hcm]
      exact ⟨by rw [hcache d cm hg hcm], rfl, Or.inl rfl⟩
    · dsimp only
      rw [if_neg hcm, hrd]
      exact ⟨rfl, rfl, Or.inr rfl⟩

/-- The fault-free staged copy over a fresh mirror location: the source bytes
land at the output path (stamped with the current clock), the temp entry is
gone, nothing else changes, and the cache receives the truthful entry for the
output path. -/
theorem stageCopy_noFault_fresh (sys : Sys) (inp out : FPath) (c : List Nat)
    (tr : List SyncStep)
    (hrd : sys.fs.readFile inp = some c)
    (htmp : sys.fs.lookup (tmpFPath out) = none)
    (hono : sys.fs.lookup out = none) :
    (stageCopy sys inp out (some (md5Digest c)) c.length .noFault tr).1.fs.lookup
        out = some (.file c sys.clock) ∧
    (∀ q, q ≠ out →
      (stageCopy sys inp out (some (md5Digest c)) c.length .noFault
        tr).1.fs.lookup q = sys.fs.lookup q) ∧
    (stageCopy sys inp out (some (md5Digest c)) c.length .noFault tr).1.cache =
      sys.cache.put out (md5Digest c) sys.clock := by
  have htpne : tmpFPath out ≠ out := tmpFPath_ne out
  have hrp : sys.fs.realpath (tmpFPath out) = tmpFPath out :=
    FS.realpath_none htmp
  have hset : (sys.fs.setNode (tmpFPath out) (.file c sys.clock)).lookup
      (tmpFPath out) = some (.file c sys.clock) := FS.lookup_setNode_self _ _ _
  have hgs : (sys.fs.setNode (tmpFPath out) (.file c sys.clock)).getsize
      (tmpFPath out) = some c.length := FS.getsize_of_file hset
  have hrd2 : (sys.fs.setNode (tmpFPath out) (.file c sys.clock)).readFile
      (tmpFPath out) = some c := FS.readFile_of_file hset
  have hlo1 : (sys.fs.setNode (tmpFPath out) (.file c sys.clock)).lookup out =
      none := by
    rw [FS.lookup_setNode_ne _ _ (fun h => htpne h.symm), hono]
  have hef : (sys.fs.setNode (tmpFPath out) (.file c sys.clock)).existsF out =
      false := FS.existsF_false_of_lookup_none hlo1
  have hfs3 : ∀ q, (((sys.fs.setNode (tmpFPath out)
      (.file c sys.clock)).removeNode (tmpFPath out)).setNode out
        (.file c sys.clock)).lookup q =
      (if q = out then some (.file c sys.clock) else sys.fs.lookup q) := by
    intro q
    by_cases hq : q = out
    · subst hq
      rw [if_pos rfl]
      exact FS.lookup_setNode_self _ _ _
    · rw [if_neg hq, FS.lookup_setNode_ne _ _ hq]
      by_cases hqt : q = tmpFPath out
      · subst hqt
        rw [FS.lookup_removeNode_self, htmp]
      · rw [FS.lookup_removeNode_ne _ hqt,
          FS.lookup_setNode_ne _ _ hqt]
  have hmt3 : (((sys.fs.setNode (tmpFPath out)
      (.file c sys.clock)).removeNode (tmpFPath out)).setNode out
        (.file c sys.clock)).getmtime out = some sys.clock := by
    unfold FS.getmtime
    rw [FS.statFile_of_file (FS.lookup_setNode_self _ _ _)]
    rfl
  have hlk : (((sys.fs.setNode (tmpFPath out)
      (.file c sys.clock)).removeNode (tmpFPath out))).lookup
      (tmpFPath out) = none := FS.lookup_removeNode_self _ _
  have hres : stageCopy sys inp out (some (md5Digest c)) c.length .noFault tr =
      ({ fs := ((sys.fs.setNode (tmpFPath out)
            (.file c sys.clock)).removeNode (tmpFPath out)).setNode out
            (.file c sys.clock),
         cache := sys.cache.put out (md5Digest c) sys.clock,
         clock := sys.clock + 1 },
        tr ++ [SyncStep.stageStart, SyncStep.tmpWritten] ++
          [SyncStep.verifyOk] ++ [SyncStep.renamed]) := by
    simp only [stageCopy, hrp, hrd, hgs]
    rw [if_neg (fun h => h rfl)]
    simp only [hrd2]
    rw [if_neg (fun h => h rfl)]
    simp only [hef, Bool.false_eq_true, if_false]
    rw [FS.lookup_setNode_self]
    simp only [hmt3]
  rw [hres]
  refine ⟨?_, ?_, rfl⟩
  · have h := hfs3 out
    rw [if_pos rfl] at h
    exact h
  · intro q hq
    have h := hfs3 q
    rw [if_neg hq] at h
    exact h

/-- The symlink branch over a fresh mirror location simply creates the
symlink. -/
theorem linkBranch_fresh (sys : Sys) (inp out : FPath)
    (hono : sys.fs.lookup out = none) :
    (linkBranch sys inp out).1.fs = sys.fs.setNode out (.symlink inp) ∧
    (linkBranch sys inp out).1.cache = sys.cache := by
  have hef : sys.fs.existsF out = false := FS.existsF_false_of_lookup_none hono
  have hlx : sys.fs.lexists out = false := by
    unfold FS.lexists
    rw [hono]
    rfl
  unfold linkBranch
  rw [hef, hlx]
  rw [if_neg Bool.false_ne_true, if_neg Bool.false_ne_true]
  exact ⟨rfl, rfl⟩

/-- The `except` cleanup after a freshly staged temp file undoes the write:
every lookup is as before the staging. -/
theorem cleanupTmp_set_file (fs : FS) (tp : FPath) (c : List Nat) (m : Nat)
    (htmp : fs.lookup tp = none) (p : FPath) :
    (cleanupTmpFS (fs.setNode tp (.file c m)) tp).lookup p = fs.lookup p := by
  unfold cleanupTmpFS
  rw [if_pos (FS.existsF_of_file (FS.lookup_setNode_self fs tp (.file c m)))]
  by_cases hp : p = tp
  · subst hp
    rw [FS.lookup_removeNode_self, htmp]
  · rw [FS.lookup_removeNode_ne _ hp, FS.lookup_setNode_ne _ _ hp]

/-- A read fault, a write fault, or a torn write caught by verification makes
the staged copy clean up the temp file and log, leaving every filesystem
lookup as before the call. -/
theorem stageCopy_bad_fault (sys : Sys) (inp out : FPath)
    (srcMd5 : Option (List Nat)) (srcSize : Nat) (fault : CopyFault)
    (tr : List SyncStep)
    (htmp : sys.fs.lookup (tmpFPath out) = none)
    (hbad : fault = .failRead ∨ (∃ bs, fault = .failWrite bs) ∨
      (∃ bs, fault = .corruptWrite bs ∧
        ∀ sm, srcMd5 = some sm → md5Digest bs ≠ sm)) :
    (∀ p, (stageCopy sys inp out srcMd5 srcSize fault tr).1.fs.lookup p =
        sys.fs.lookup p) ∧
    (SyncStep.renamed ∉ tr →
      SyncStep.renamed ∉ (stageCopy sys inp out srcMd5 srcSize fault tr).2) ∧
    (∃ msg, SyncStep.errorLogged msg ∈
      (stageCopy sys inp out srcMd5 srcSize fault tr).2) := by
  have hrp : sys.fs.realpath (tmpFPath out) = tmpFPath out :=
    FS.realpath_none htmp
  rcases hbad with hf | ⟨bs, hf⟩ | ⟨bs, hf, hmm⟩ <;> subst hf
  · refine ⟨fun p => ?_, fun htr => ?_, ⟨"read failed", ?_⟩⟩
    · simp only [stageCopy, hrp]
      exact cleanupTmp_set_file sys.fs (tmpFPath out) [] sys.clock htmp p
    · simp only [stageCopy]
      simp [htr]
    · simp only [stageCopy]
      simp
  · refine ⟨fun p => ?_, fun htr => ?_, ⟨"write failed", ?_⟩⟩
    · simp only [stageCopy, hrp]
      exact cleanupTmp_set_file sys.fs (tmpFPath out) bs sys.clock htmp p
    · simp only [stageCopy]
      simp [htr]
    · simp only [stageCopy]
      simp
  · cases hr : sys.fs.readFile inp with
    | none =>
      refine ⟨fun p => ?_, fun htr => ?_, ⟨"read failed", ?_⟩⟩
      · simp only [stageCopy, hrp, hr]
        exact cleanupTmp_set_file sys.fs (tmpFPath out) [] sys.clock htmp p
      · simp only [stageCopy, hr]
        simp [htr]
      · simp only [stageCopy, hr]
        simp
    | some src =>
      have hset : (sys.fs.setNode (tmpFPath out) (.file bs sys.clock)).lookup
          (tmpFPath out) = some (.file bs sys.clock) :=
        FS.lookup_setNode_self _ _ _
      have hgs : (sys.fs.setNode (tmpFPath out)
          (.file bs sys.clock)).getsize (tmpFPath out) = some bs.length :=
        FS.getsize_of_file hset
      have hrd2 : (sys.fs.setNode (tmpFPath out)
          (.file bs sys.clock)).readFile (tmpFPath out) = some bs :=
        FS.readFile_of_file hset
      have hcl : ∀ p, (cleanupTmpFS (sys.fs.setNode (tmpFPath out)
          (.file bs sys.clock)) (tmpFPath out)).lookup p = sys.fs.lookup p :=
        cleanupTmp_set_file sys.fs (tmpFPath out) bs sys.clock htmp
      cases hsm : srcMd5 with
      | none =>
        refine ⟨fun p => ?_, fun htr => ?_, ?_⟩
        · simp only [stageCopy, hrp, hr, hgs, hsm]
          split <;> exact hcl p
        · simp only [stageCopy, hrp, hr, hgs, hsm]
          split <;> simp [htr]
        · simp only [stageCopy, hrp, hr, hgs, hsm]
          split
          · exact ⟨"verify failed", by simp⟩
          · exact ⟨"UnboundLocalError source_md5", by simp⟩
      | some sm =>
        have hne : md5Digest bs ≠ sm := hmm sm hsm
        refine ⟨fun p => ?_, fun htr => ?_, ?_⟩
        · simp only [stageCopy, hrp, hr, hgs, hsm, hrd2]
          split <;> exact hcl p
        · simp only [stageCopy, hrp, hr, hgs, hsm, hrd2]
          split <;> simp [htr]
        · simp only [stageCopy, hrp, hr, hgs, hsm, hrd2]
          split <;> exact ⟨"verify failed", by simp⟩

/-- Invocation helper: the staged-copy failure lemma transported along a
state whose filesystem equals the reference one. -/
theorem stage_invoke (sys sysX : Sys) (hfs : sysX.fs = sys.fs)
    (inp out : FPath) (srcMd5 : Option (List Nat)) (srcSize : Nat)
    (fault : CopyFault) (tr : List SyncStep)
    (htmp : sys.fs.lookup (tmpFPath out) = none)
    (htr : SyncStep.renamed ∉ tr)
    (hbad : fault = .failRead ∨ (∃ bs, fault = .failWrite bs) ∨
      (∃ bs, fault = .corruptWrite bs ∧
        ∀ sm, srcMd5 = some sm → md5Digest bs ≠ sm)) :
    (∀ p, (stageCopy sysX inp out srcMd5 srcSize fault tr).1.fs.lookup p =
        sys.fs.lookup p) ∧
    SyncStep.renamed ∉ (stageCopy sysX inp out srcMd5 srcSize fault tr).2 ∧
    (SyncStep.stageStart ∈ (stageCopy sysX inp out srcMd5 srcSize fault tr).2 →
      ∃ msg, SyncStep.errorLogged msg ∈
        (stageCopy sysX inp out srcMd5 srcSize fault tr).2) := by
  have h := stageCopy_bad_fault sysX inp out srcMd5 srcSize fault tr
    (by rw [hfs]; exact htmp) hbad
  exact ⟨fun p => by rw [h.1 p, hfs], h.2.1 htr, fun _ => h.2.2⟩

/-- Copy-branch version of the staged-copy failure lemma: whatever path
`sync_file_async`'s copy branch takes, a read, write or torn-write fault
leaves every filesystem lookup unchanged, nothing is renamed, and reaching
the staging implies an error was logged. -/
theorem copyBranch_bad_fault (sys : Sys) (inp out : FPath) (evt : EventType)
    (fault : CopyFault)
    (htmp : sys.fs.lookup (tmpFPath out) = none)
    (hcache : ∀ d m, sys.cache.get inp = some (d, m) →
        ∀ c mt, sys.fs.statFile inp = some (c, mt) → m = mt → d = md5Digest c)
    (hbad : fault = .failRead ∨ (∃ bs, fault = .failWrite bs) ∨
        (∃ bs, fault = .corruptWrite bs ∧
          ∀ c, sys.fs.readFile inp = some c → bs ≠ c)) :
    (∀ p, (copyBranch sys inp out evt fault).1.fs.lookup p = sys.fs.lookup p) ∧
    SyncStep.renamed ∉ (copyBranch sys inp out evt fault).2 ∧
    (SyncStep.stageStart ∈ (copyBranch sys inp out evt fault).2 →
      ∃ msg, SyncStep.errorLogged msg ∈ (copyBranch sys inp out evt fault).2) := by
  have hbadN : ∀ o : Option (List Nat), o = none →
      fault = .failRead ∨ (∃ bs, fault = .failWrite bs) ∨
      (∃ bs, fault = .corruptWrite bs ∧
        ∀ sm, o = some sm → md5Digest bs ≠ sm) := by
    intro o ho
    rcases hbad with h | h | ⟨bs, hf, _⟩
    · exact Or.inl h
    · exact Or.inr (Or.inl h)
    · exact Or.inr (Or.inr ⟨bs, hf, fun sm h => by rw [ho] at h; cases h⟩)
  cases hgs : sys.fs.getsize inp with
  | none =>
    simp only [copyBranch, hgs]
    simp
  | some srcSize =>
    obtain ⟨c, mt, hst⟩ : ∃ c mt, sys.fs.statFile inp = some (c, mt) := by
      cases hst : sys.fs.statFile inp with
      | none =>
        rw [FS.getsize, hst] at hgs
        cases hgs
      | some cm => exact ⟨cm.1, cm.2, by simp [hst]⟩
    have hrdc : sys.fs.readFile inp = some c := by
      unfold FS.readFile; rw [hst]; rfl
    by_cases hini : evt = .initial ∧ sys.fs.existsF out = true
    · cases hgo : sys.fs.getsize out with
      | none =>
        simp only [copyBranch, hgs, if_pos hini, hgo]
        simp
      | some tgt =>
        by_cases hts : tgt = srcSize
        · simp only [copyBranch, hgs, if_pos hini, hgo, if_pos hts]
          simp
        · simp only [copyBranch, hgs, if_pos hini, hgo, if_neg hts]
          exact stage_invoke sys sys rfl inp out none srcSize fault []
            htmp (by simp) (hbadN none rfl)
    · cases hgm : getFileMd5Async sys inp with
      | mk r sys1 =>
        have hfs1 : sys1.fs = sys.fs := by
          have h := getFileMd5Async_fs sys inp
          rw [hgm] at h
          exact h
        cases r with
        | none =>
          simp only [copyBranch, hgs, if_neg hini, hgm]
          simp [hfs1]
        | some sm =>
          have hsm_eq : sm = md5Digest c := by
            have h := getFileMd5Async_eq_digest sys inp hst
              (fun d m hg hm => hcache d m hg c mt hst hm)
            rw [hgm] at h
            exact Option.some.inj h
          have hbadS : fault = .failRead ∨ (∃ bs, fault = .failWrite bs) ∨
              (∃ bs, fault = .corruptWrite bs ∧
                ∀ sm', (some sm : Option (List Nat)) = some sm' →
                  md5Digest bs ≠ sm') := by
            rcases hbad with h | h | ⟨bs, hf, hbs⟩
            · exact Or.inl h
            · exact Or.inr (Or.inl h)
            · refine Or.inr (Or.inr ⟨bs, hf, ?_⟩)
              intro sm' hsm' hmd
              obtain rfl : sm = sm' := Option.some.inj hsm'
              rw [hsm_eq] at hmd
              exact hbs c hrdc hmd
          by_cases heo : sys1.fs.existsF out = true
          · have heo' : sys.fs.existsF out = true := by rw [← hfs1]; exact heo
            cases hgo : sys1.fs.getsize out with
            | none =>
              simp only [copyBranch, hgs, if_neg hini, hgm, if_pos heo, hgo]
              simp [hfs1]
            | some tgt =>
              by_cases hts : tgt = srcSize
              · cases hgm2 : getFileMd5Async sys1 out with
                | mk r2 sys2 =>
                  have hfs2 : sys2.fs = sys.fs := by
                    have h := getFileMd5Async_fs sys1 out
                    rw [hgm2] at h
                    rw [h, hfs1]
                  cases r2 with
                  | none =>
                    simp only [copyBranch, hgs, if_neg hini, hgm, if_pos heo,
                      hgo, if_pos hts, hgm2]
                    exact stage_invoke sys sys2 hfs2 inp out (some sm) srcSize
                      fault _ htmp (by simp) hbadS
                  | some tm =>
                    by_cases htm : tm = sm
                    · simp only [copyBranch, hgs, if_neg hini, hgm, if_pos heo,
                        hgo, if_pos hts, hgm2, if_pos htm]
                      simp [hfs2]
                    · simp only [copyBranch, hgs, if_neg hini, hgm, if_pos heo,
                        hgo, if_pos hts, hgm2, if_neg htm]
                      exact stage_invoke sys sys2 hfs2 inp out (some sm) srcSize
                        fault _ htmp (by simp) hbadS
              · simp only [copyBranch, hgs, if_neg hini, hgm, if_pos heo, hgo,
                  if_neg hts]
                exact stage_invoke sys sys1 hfs1 inp out (some sm) srcSize
                  fault _ htmp (by simp) hbadS
          · simp only [copyBranch, hgs, if_neg hini, hgm, if_neg heo]
            exact stage_invoke sys sys1 hfs1 inp out (some sm) srcSize fault _
              htmp (by simp) hbadS

/-- With a permanently absent path, every iteration of the monitor loop takes
the `continue` branch, which skips the timeout check, so the loop never
returns whatever the fuel. -/
theorem waitLoop_absent_never_returns (startTime : Nat) :
    ∀ (fuel : Nat) (st : MonState) (t : Nat),
      waitLoop (fun _ => none) startTime fuel st t = none := by
  intro fuel
  induction fuel with
  | zero => intro st t; rfl
  | succ n ih => intro st t; exact ih st (t + 1)

/-- A key occurring in an association list has a find-hit. -/
theorem find?_of_mem_keys {l : List (FPath × Node)} {p : FPath}
    (h : p ∈ l.map (·.1)) :
    ∃ n, (l.find? (fun e => decide (e.1 = p))).map (·.2) = some n := by
  induction l with
  | nil => cases h
  | cons e l ih =>
    by_cases hep : e.1 = p
    · exact ⟨e.2, by simp [List.find?, hep]⟩
    · have h2 : p ∈ l.map (·.1) := by
        rcases List.mem_map.mp h with ⟨x, hx, hxe⟩
        rcases List.mem_cons.mp hx with rfl | hx2
        · exact absurd hxe hep
        · exact List.mem_map.mpr ⟨x, hx2, hxe⟩
      have h4 : ¬ (decide (e.1 = p) = true) := by simp [hep]
      obtain ⟨n, hn⟩ := ih h2
      refine ⟨n, ?_⟩
      have hfc : List.find? (fun e => decide (e.1 = p)) (e :: l) =
          List.find? (fun e => decide (e.1 = p)) l :=
        List.find?_cons_of_neg l h4
      rw [hfc, hn]

/-- A key occurring in the node list has a lookup. -/
theorem lookup_of_mem_keys {fs : FS} {p : FPath}
    (h : p ∈ fs.nodes.map (·.1)) : ∃ n, fs.lookup p = some n :=
  find?_of_mem_keys h

/-- The last component of an append with a nonempty right part. -/
theorem getLastD_append_right (l1 l2 : FPath) (h : l2 ≠ []) (d : String) :
    (l1 ++ l2).getLastD d = l2.getLastD d := by
  rcases List.eq_nil_or_concat l2 with rfl | ⟨l2', a, rfl⟩
  · exact absurd rfl h
  · simp only [List.concat_eq_append]
    rw [← List.append_assoc, List.getLastD_concat, List.getLastD_concat]

/-- Appending `".tmp"` makes a string end with `".tmp"`. -/
theorem endsWith_append_tmp (s : String) :
    strEndsWith (s ++ ".tmp") ".tmp" = true := by
  unfold strEndsWith
  rw [List.isSuffixOf_iff_suffix]
  show String.data ".tmp" <:+ (s ++ ".tmp").data
  have hd : (s ++ ".tmp").data = s.data ++ ".tmp".data := rfl
  rw [hd]
  exact List.suffix_append _ _

/-- The output-path map is injective on paths below `input_dir`. -/
theorem outP_inj {inDir outDir f g : FPath} (hf : inDir <+: f)
    (hg : inDir <+: g)
    (h : outDir ++ f.drop inDir.length = outDir ++ g.drop inDir.length) :
    f = g := by
  obtain ⟨tf, rfl⟩ := hf
  obtain ⟨tg, rfl⟩ := hg
  rw [List.drop_left, List.drop_left] at h
  rw [List.append_cancel_left h]

/-- Two incomparable roots cannot both be prefixes of one path. -/
theorem not_prefix_both {A B p : FPath} (h1 : ¬ A <+: B) (h2 : ¬ B <+: A)
    (ha : A <+: p) (hb : B <+: p) : False := by
  rcases List.prefix_or_prefix_of_prefix ha hb with h | h
  · exact h1 h
  · exact h2 h

/-- A lookup hit means the node list is nonempty. -/
theorem nodes_pos_of_lookup {fs : FS} {a : FPath} {n : Node}
    (h : fs.lookup a = some n) : 0 < fs.nodes.length := by
  cases hn : fs.nodes with
  | nil =>
    unfold FS.lookup at h
    rw [hn] at h
    cases h
  | cons x l => simp [hn]

/-- Realpath of a symlink whose target is a regular file. -/
theorem realpath_of_symlink_file {fs : FS} {a b : FPath} {c : List Nat}
    {m : Nat} (ha : fs.lookup a = some (.symlink b))
    (hb : fs.lookup b = some (.file c m)) : fs.realpath a = b := by
  have hpos : 0 < fs.nodes.length := nodes_pos_of_lookup ha
  obtain ⟨k, hk⟩ : ∃ k, fs.nodes.length = k + 1 :=
    ⟨fs.nodes.length - 1, by omega⟩
  unfold FS.realpath
  rw [hk]
  show fs.resolveN (k + 1 + 1) a = b
  unfold FS.resolveN
  rw [ha]
  exact FS.resolveN_file hb (k + 1)

/-- A node is a file exactly when it is built by `Node.file`. -/
theorem Node.isFile_iff {n : Node} :
    n.isFile = true ↔ ∃ c m, n = .file c m := by
  cases n <;> simp [Node.isFile]

/-- The bottom-up empty-directory sweep never touches nodes. -/
theorem cleanupEmptyDirs_nodes (fs : FS) (root : FPath) :
    (cleanupEmptyDirs fs root).nodes = fs.nodes := by
  unfold cleanupEmptyDirs
  generalize sortByLenDesc (fs.dirs.filter
      (fun d => root.isPrefixOf d && decide (d ≠ root))) = ds
  induction ds generalizing fs with
  | nil => rfl
  | cons d ds ih =>
    simp only [List.foldl_cons]
    by_cases h : fs.hasDesc d
    · simpa [h] using ih fs
    · simpa [h] using ih (fs.removeDir d)

/-- Unpacking membership in the reconciliation walk: the file sits strictly
below `input_dir` and has a node. -/
theorem src_mem_spec (cfg : HandlerCfg) (fs0 : FS) (g : FPath)
    (hg : g ∈ sourceFilesUnder fs0 cfg.inDir) :
    ∃ relg, relg ≠ [] ∧ g = cfg.inDir ++ relg ∧
      g.drop cfg.inDir.length = relg ∧ ∃ n, fs0.lookup g = some n := by
  unfold sourceFilesUnder at hg
  rw [List.mem_filter] at hg
  obtain ⟨hkeys, hcond⟩ := hg
  rw [Bool.and_eq_true] at hcond
  have hpre : cfg.inDir <+: g := List.isPrefixOf_iff_prefix.mp hcond.1
  have hne : g ≠ cfg.inDir := of_decide_eq_true hcond.2
  obtain ⟨relg, hrel⟩ := hpre
  refine ⟨relg, ?_, hrel.symm, ?_, lookup_of_mem_keys hkeys⟩
  · rintro rfl
    rw [List.append_nil] at hrel
    exact hne hrel.symm
  · rw [← hrel]
    exact List.drop_left _ _

/-- The fault-free copy branch on an `initial` event over a fresh mirror
location: the source bytes are mirrored at the output path, nothing else in
the filesystem changes, and the cache is changed at most at the source path
(truthfully) and at the output path. -/
theorem copyBranch_initial_fresh (sys : Sys) (inp out : FPath)
    (c : List Nat) (m : Nat)
    (hsf : sys.fs.lookup inp = some (.file c m))
    (hono : sys.fs.lookup out = none)
    (htmp : sys.fs.lookup (tmpFPath out) = none)
    (hio : inp ≠ out)
    (hch : ∀ d mm, sys.cache.get inp = some (d, mm) → mm = m →
      d = md5Digest c) :
    (∃ m', (copyBranch sys inp out .initial .noFault).1.fs.lookup out =
        some (.file c m')) ∧
    (∀ q, q ≠ out →
      (copyBranch sys inp out .initial .noFault).1.fs.lookup q =
        sys.fs.lookup q) ∧
    (∀ p', p' ≠ out → p' ≠ inp →
      (copyBranch sys inp out .initial .noFault).1.cache.get p' =
        sys.cache.get p') ∧
    ((copyBranch sys inp out .initial .noFault).1.cache.get inp =
        sys.cache.get inp ∨
      (copyBranch sys inp out .initial .noFault).1.cache.get inp =
        some (md5Digest c, m)) := by
  have hgsz : sys.fs.getsize inp = some c.length := FS.getsize_of_file hsf
  have hstat : sys.fs.statFile inp = some (c, m) := FS.statFile_of_file hsf
  have hef : sys.fs.existsF out = false := FS.existsF_false_of_lookup_none hono
  have hini : ¬ (EventType.initial = EventType.initial ∧
      sys.fs.existsF out = true) := by
    intro h
    rw [hef] at h
    cases h.2
  obtain ⟨hv, hfs, hcach⟩ := getFileMd5Async_spec sys inp hstat hch
  cases hgm : getFileMd5Async sys inp with
  | mk r s2 =>
    rw [hgm] at hv hfs hcach
    dsimp only at hv hfs hcach
    subst hv
    have hrd2 : s2.fs.readFile inp = some c := by
      rw [hfs]
      exact FS.readFile_of_file hsf
    have htmp2 : s2.fs.lookup (tmpFPath out) = none := by rw [hfs]; exact htmp
    have hono2 : s2.fs.lookup out = none := by rw [hfs]; exact hono
    have hef2 : s2.fs.existsF out = false := by rw [hfs]; exact hef
    obtain ⟨hlo, hlq, hca⟩ := stageCopy_noFault_fresh s2 inp out c
      [SyncStep.srcMd5Computed] hrd2 htmp2 hono2
    have hrun : copyBranch sys inp out .initial .noFault =
        stageCopy s2 inp out (some (md5Digest c)) c.length .noFault
          [SyncStep.srcMd5Computed] := by
      unfold copyBranch
      rw [hgsz]
      dsimp only
      rw [if_neg hini]
      rw [hgm]
      dsimp only
      rw [hef2]
      rw [if_neg Bool.false_ne_true]
    rw [hrun]
    refine ⟨⟨s2.clock, hlo⟩, ?_, ?_, ?_⟩
    · intro q hq
      rw [hlq q hq, hfs]
    · intro p' hpo hpi
      rw [hca, SyncCache.get_put_ne _ _ _ hpo]
      rcases hcach with h | h
      · rw [h]
      · rw [h, SyncCache.get_put_ne _ _ _ hpi]
    · rw [hca, SyncCache.get_put_ne _ _ _ hio]
      rcases hcach with h | h
      · rw [h]
        exact Or.inl rfl
      · rw [h, SyncCache.get_put_self]
        exact Or.inr rfl

/-- One step of the reconciliation fold preserves the invariant. -/
theorem recon_step (cfg : HandlerCfg) (fs0 : FS)
    (hdisj1 : ¬ cfg.inDir <+: cfg.outDir) (hdisj2 : ¬ cfg.outDir <+: cfg.inDir)
    (hsrcreg : ∀ p n, cfg.inDir <+: p → fs0.lookup p = some n →
      n.isFile = true)
    (hnotmp : ∀ g ∈ sourceFilesUnder fs0 cfg.inDir,
        strEndsWith (g.getLastD "") ".tmp" = false)
    (s : Sys) (done : List FPath) (f : FPath)
    (hf : f ∈ sourceFilesUnder fs0 cfg.inDir)
    (hfd : f ∉ done)
    (hdone : ∀ g ∈ done, g ∈ sourceFilesUnder fs0 cfg.inDir)
    (hinv : ReconInv cfg fs0 s done) :
    ReconInv cfg fs0 (syncFileAsync cfg s f .initial .noFault).1
      (done ++ [f]) := by
  obtain ⟨I1, I2, I3, I4⟩ := hinv
  obtain ⟨rel, hrelne, hfeq, hdrop, n0, hn0⟩ := src_mem_spec cfg fs0 f hf
  have hpre : cfg.inDir <+: f := ⟨rel, hfeq.symm⟩
  obtain ⟨c, m, hn0f⟩ := Node.isFile_iff.mp (hsrcreg f n0 hpre hn0)
  subst hn0f
  have hout_rel : cfg.outDir ++ f.drop cfg.inDir.length = cfg.outDir ++ rel := by
    rw [hdrop]
  have houtpre : cfg.outDir <+: cfg.outDir ++ f.drop cfg.inDir.length :=
    ⟨_, rfl⟩
  have hfnotout : ¬ cfg.outDir <+: f := fun h =>
    not_prefix_both hdisj1 hdisj2 hpre h
  have hio : f ≠ cfg.outDir ++ f.drop cfg.inDir.length := fun h =>
    hfnotout (by rw [h]; exact houtpre)
  have hsf : s.fs.lookup f = some (.file c m) := by
    rw [I1 f hfnotout]
    exact hn0
  have hex : s.fs.existsF f = true := FS.existsF_of_file hsf
  have hstat0 : fs0.statFile f = some (c, m) := FS.statFile_of_file hn0
  have hgop : getOutputPath cfg f =
      some (cfg.outDir ++ f.drop cfg.inDir.length) := by
    unfold getOutputPath
    rw [if_pos (List.isPrefixOf_iff_prefix.mpr hpre)]
  have hono : s.fs.lookup (cfg.outDir ++ f.drop cfg.inDir.length) = none := by
    by_contra hsome
    obtain ⟨g, hgdone, hgeq⟩ := I3 _ houtpre hsome
    obtain ⟨relg, hgne, hgeq2, hgdrop, _⟩ := src_mem_spec cfg fs0 g
      (hdone g hgdone)
    have hpg : cfg.inDir <+: g := ⟨relg, hgeq2.symm⟩
    have hgf : f = g := outP_inj hpre hpg hgeq
    exact hfd (by rw [hgf]; exact hgdone)
  have htp_eq : tmpFPath (cfg.outDir ++ f.drop cfg.inDir.length) =
      cfg.outDir ++ (rel.dropLast ++ [rel.getLastD "" ++ ".tmp"]) := by
    unfold tmpFPath
    rw [hout_rel, List.dropLast_append_of_ne_nil _ hrelne,
      getLastD_append_right _ _ hrelne, List.append_assoc]
  have htppre : cfg.outDir <+:
      tmpFPath (cfg.outDir ++ f.drop cfg.inDir.length) := ⟨_, htp_eq.symm⟩
  have htmpno : s.fs.lookup
      (tmpFPath (cfg.outDir ++ f.drop cfg.inDir.length)) = none := by
    by_contra hsome
    obtain ⟨g, hgdone, hgeq⟩ := I3 _ htppre hsome
    obtain ⟨relg, hgne, hgeq2, hgdrop, _⟩ := src_mem_spec cfg fs0 g
      (hdone g hgdone)
    rw [htp_eq, hgdrop] at hgeq
    have hrelg : relg = rel.dropLast ++ [rel.getLastD "" ++ ".tmp"] :=
      (List.append_cancel_left hgeq).symm
    have hglast : g.getLastD "" = rel.getLastD "" ++ ".tmp" := by
      rw [hgeq2, getLastD_append_right _ _ hgne, hrelg, List.getLastD_concat]
    have hgt := hnotmp g (hdone g hgdone)
    rw [hglast, endsWith_append_tmp] at hgt
    cases hgt
  have hstats : s.fs.statFile f = some (c, m) := FS.statFile_of_file hsf
  -- the path-level preconditions transported through `makedirs`
  have hsfM : (s.fs.mkdirs
      (cfg.outDir ++ f.drop cfg.inDir.length).dropLast).lookup f =
      some (.file c m) := by rw [FS.lookup_mkdirs]; exact hsf
  have honoM : (s.fs.mkdirs
      (cfg.outDir ++ f.drop cfg.inDir.length).dropLast).lookup
      (cfg.outDir ++ f.drop cfg.inDir.length) = none := by
    rw [FS.lookup_mkdirs]; exact hono
  have htmpM : (s.fs.mkdirs
      (cfg.outDir ++ f.drop cfg.inDir.length).dropLast).lookup
      (tmpFPath (cfg.outDir ++ f.drop cfg.inDir.length)) = none := by
    rw [FS.lookup_mkdirs]; exact htmpno
  by_cases hck : checkExt cfg.exts f = true
  · -- copy set: run is the copy branch after `makedirs`
    have hrun : syncFileAsync cfg s f .initial .noFault =
        copyBranch { s with fs := s.fs.mkdirs (cfg.outDir ++ f.drop cfg.inDir.length).dropLast }
          f (cfg.outDir ++ f.drop cfg.inDir.length) .initial .noFault := by
      unfold syncFileAsync
      rw [if_pos hex, hgop]
      dsimp only
      rw [if_pos hck]
    obtain ⟨⟨m', hlo⟩, hlq, hcq, hcin⟩ := copyBranch_initial_fresh
      { s with fs := s.fs.mkdirs (cfg.outDir ++ f.drop cfg.inDir.length).dropLast }
      f (cfg.outDir ++ f.drop cfg.inDir.length) c m hsfM honoM htmpM hio
      (fun d mm hg hm => I4 f d mm hpre hg c m hstat0 hm)
    rw [hrun]
    refine ⟨?_, ?_, ?_, ?_⟩
    · intro p hp
      have hpo : p ≠ cfg.outDir ++ f.drop cfg.inDir.length := fun h =>
        hp (by rw [h]; exact houtpre)
      rw [hlq p hpo, FS.lookup_mkdirs]
      exact I1 p hp
    · intro g hg
      rcases List.mem_append.mp hg with hg1 | hg2
      · have hgf : g ≠ f := fun h => hfd (by rw [← h]; exact hg1)
        obtain ⟨relg, hgne, hgeq2, hgdrop, _⟩ := src_mem_spec cfg fs0 g
          (hdone g hg1)
        have hpg : cfg.inDir <+: g := ⟨relg, hgeq2.symm⟩
        have hgo : cfg.outDir ++ g.drop cfg.inDir.length ≠
            cfg.outDir ++ f.drop cfg.inDir.length := fun h =>
          hgf (outP_inj hpg hpre h)
        constructor
        · intro hckg
          obtain ⟨cg, mg, mg', hg0, hgs⟩ := (I2 g hg1).1 hckg
          exact ⟨cg, mg, mg', hg0, by
            rw [hlq _ hgo, FS.lookup_mkdirs]
            exact hgs⟩
        · intro hckg
          rw [hlq _ hgo, FS.lookup_mkdirs]
          exact (I2 g hg1).2 hckg
      · have hgf : g = f := by simpa using hg2
        subst hgf
        constructor
        · intro _
          exact ⟨c, m, m', hn0, hlo⟩
        · intro hckg
          rw [hck] at hckg
          cases hckg
    · intro p hpd hpn
      by_cases hpo : p = cfg.outDir ++ f.drop cfg.inDir.length
      · exact ⟨f, List.mem_append.mpr (Or.inr (by simp)), hpo⟩
      · rw [hlq p hpo, FS.lookup_mkdirs] at hpn
        obtain ⟨g, hgdone, hgeq⟩ := I3 p hpd hpn
        exact ⟨g, List.mem_append.mpr (Or.inl hgdone), hgeq⟩
    · intro p d mm hpd hpg c' mt' hst' hm'
      have hpo : p ≠ cfg.outDir ++ f.drop cfg.inDir.length := fun h => by
        rw [h] at hpd
        exact not_prefix_both hdisj1 hdisj2 hpd houtpre
      by_cases hpf : p = f
      · subst hpf
        rcases hcin with h | h
        · rw [h] at hpg
          exact I4 p d mm hpd hpg c' mt' hst' hm'
        · rw [h] at hpg
          have hd : md5Digest c = d := congrArg Prod.fst (Option.some.inj hpg)
          rw [hstat0] at hst'
          have hc' : c = c' := congrArg Prod.fst (Option.some.inj hst')
          rw [← hd, ← hc']
      · rw [hcq p hpo hpf] at hpg
        exact I4 p d mm hpd hpg c' mt' hst' hm'
  · -- symlink branch
    have hckf : checkExt cfg.exts f = false := by
      cases h : checkExt cfg.exts f
      · rfl
      · exact absurd h hck
    have hrun : syncFileAsync cfg s f .initial .noFault =
        linkBranch { s with fs := s.fs.mkdirs (cfg.outDir ++ f.drop cfg.inDir.length).dropLast }
          f (cfg.outDir ++ f.drop cfg.inDir.length) := by
      unfold syncFileAsync
      rw [if_pos hex, hgop]
      dsimp only
      rw [hckf]
      rw [if_neg Bool.false_ne_true]
    obtain ⟨hlf, hlc⟩ := linkBranch_fresh
      { s with fs := s.fs.mkdirs (cfg.outDir ++ f.drop cfg.inDir.length).dropLast }
      f (cfg.outDir ++ f.drop cfg.inDir.length) honoM
    rw [hrun]
    refine ⟨?_, ?_, ?_, ?_⟩
    · intro p hp
      have hpo : p ≠ cfg.outDir ++ f.drop cfg.inDir.length := fun h =>
        hp (by rw [h]; exact houtpre)
      rw [hlf, FS.lookup_setNode_ne _ _ hpo, FS.lookup_mkdirs]
      exact I1 p hp
    · intro g hg
      rcases List.mem_append.mp hg with hg1 | hg2
      · have hgf : g ≠ f := fun h => hfd (by rw [← h]; exact hg1)
        obtain ⟨relg, hgne, hgeq2, hgdrop, _⟩ := src_mem_spec cfg fs0 g
          (hdone g hg1)
        have hpg : cfg.inDir <+: g := ⟨relg, hgeq2.symm⟩
        have hgo : cfg.outDir ++ g.drop cfg.inDir.length ≠
            cfg.outDir ++ f.drop cfg.inDir.length := fun h =>
          hgf (outP_inj hpg hpre h)
        constructor
        · intro hckg
          obtain ⟨cg, mg, mg', hg0, hgs⟩ := (I2 g hg1).1 hckg
          exact ⟨cg, mg, mg', hg0, by
            rw [hlf, FS.lookup_setNode_ne _ _ hgo, FS.lookup_mkdirs]
            exact hgs⟩
        · intro hckg
          rw [hlf, FS.lookup_setNode_ne _ _ hgo, FS.lookup_mkdirs]
          exact (I2 g hg1).2 hckg
      · have hgf : g = f := by simpa using hg2
        subst hgf
        constructor
        · intro hckg
          rw [hckf] at hckg
          cases hckg
        · intro _
          rw [hlf]
          exact FS.lookup_setNode_self _ _ _
    · intro p hpd hpn
      by_cases hpo : p = cfg.outDir ++ f.drop cfg.inDir.length
      · exact ⟨f, List.mem_append.mpr (Or.inr (by simp)), hpo⟩
      · rw [hlf, FS.lookup_setNode_ne _ _ hpo, FS.lookup_mkdirs] at hpn
        obtain ⟨g, hgdone, hgeq⟩ := I3 p hpd hpn
        exact ⟨g, List.mem_append.mpr (Or.inl hgdone), hgeq⟩
    · intro p d mm hpd hpg c' mt' hst' hm'
      rw [hlc] at hpg
      exact I4 p d mm hpd hpg c' mt' hst' hm'

/-- A successful lookup comes from an entry of the node list. -/
theorem mem_of_lookup {fs : FS} {p : FPath} {n : Node}
    (h : fs.lookup p = some n) : (p, n) ∈ fs.nodes := by
  unfold FS.lookup at h
  cases hf : fs.nodes.find? (fun e => decide (e.1 = p)) with
  | none => rw [hf] at h; cases h
  | some e =>
    rw [hf] at h
    have h2 : e.2 = n := Option.some.inj h
    have h1 : e.1 = p := by simpa using List.find?_some hf
    have hm := List.mem_of_find?_eq_some hf
    rw [← h1, ← h2]
    exact hm

/-- The whole reconciliation fold preserves the invariant, accumulating the
processed files. -/
theorem recon_fold (cfg : HandlerCfg) (fs0 : FS)
    (hdisj1 : ¬ cfg.inDir <+: cfg.outDir) (hdisj2 : ¬ cfg.outDir <+: cfg.inDir)
    (hsrcreg : ∀ p n, cfg.inDir <+: p → fs0.lookup p = some n →
      n.isFile = true)
    (hnotmp : ∀ g ∈ sourceFilesUnder fs0 cfg.inDir,
        strEndsWith (g.getLastD "") ".tmp" = false) :
    ∀ (todo : List FPath) (done : List FPath) (s : Sys),
      (∀ t ∈ todo, t ∈ sourceFilesUnder fs0 cfg.inDir) →
      (∀ t ∈ todo, t ∉ done) →
      todo.Nodup →
      (∀ g ∈ done, g ∈ sourceFilesUnder fs0 cfg.inDir) →
      ReconInv cfg fs0 s done →
      ReconInv cfg fs0
        (todo.foldl (fun s p => (syncFileAsync cfg s p .initial .noFault).1) s)
        (done ++ todo) := by
  intro todo
  induction todo with
  | nil =>
    intro done s _ _ _ _ hinv
    simpa using hinv
  | cons t ts ih =>
    intro done s htodo hnd hnodup hdone hinv
    have hstep := recon_step cfg fs0 hdisj1 hdisj2 hsrcreg hnotmp s done t
      (htodo t (by simp)) (hnd t (by simp)) hdone hinv
    have hrest := ih (done ++ [t])
      (syncFileAsync cfg s t .initial .noFault).1
      (fun u hu => htodo u (by simp [hu]))
      (fun u hu hmem => by
        rcases List.mem_append.mp hmem with h | h
        · exact hnd u (by simp [hu]) h
        · have : u = t := by simpa using h
          exact (List.nodup_cons.mp hnodup).1 (this ▸ hu))
      (List.nodup_cons.mp hnodup).2
      (fun g hg => by
        rcases List.mem_append.mp hg with h | h
        · exact hdone g h
        · have : g = t := by simpa using h
          exact this ▸ htodo t (by simp))
      hstep
    simpa using hrest

/-- The upward walk never touches nodes. -/
theorem cleanupUp_nodes (root : FPath) :
    ∀ (n : Nat) (d : FPath), d.length ≤ n →
      ∀ fs : FS, (cleanupUp root fs d).nodes = fs.nodes := by
  intro n
  induction n with
  | zero =>
    intro d hd fs
    have hde : d = [] := List.length_eq_zero.mp (Nat.le_zero.mp hd)
    subst hde
    unfold cleanupUp
    simp
  | succ n ih =>
    intro d hd fs
    unfold cleanupUp
    by_cases h1 : d ≠ [] ∧ root.isPrefixOf d = true
    · rw [if_pos h1]
      by_cases h2 : d ∈ fs.dirs
      · rw [if_pos h2]
        by_cases h3 : fs.hasDesc d = true
        · rw [if_pos h3]
        · rw [if_neg h3]
          have hlen : d.dropLast.length ≤ n := by
            have hpos : 0 < d.length := List.length_pos.mpr h1.1
            rw [List.length_dropLast]
            omega
          rw [ih d.dropLast hlen (fs.removeDir d)]
          rfl
      · rw [if_neg h2]
    · rw [if_neg h1]

/-- The upward walk only ever removes directories. -/
theorem cleanupUp_dirs_subset (root : FPath) :
    ∀ (n : Nat) (d : FPath), d.length ≤ n →
      ∀ (fs : FS) (x : FPath), x ∈ (cleanupUp root fs d).dirs → x ∈ fs.dirs := by
  intro n
  induction n with
  | zero =>
    intro d hd fs x hx
    have hde : d = [] := List.length_eq_zero.mp (Nat.le_zero.mp hd)
    subst hde
    unfold cleanupUp at hx
    simpa using hx
  | succ n ih =>
    intro d hd fs x hx
    unfold cleanupUp at hx
    by_cases h1 : d ≠ [] ∧ root.isPrefixOf d = true
    · rw [if_pos h1] at hx
      by_cases h2 : d ∈ fs.dirs
      · rw [if_pos h2] at hx
        by_cases h3 : fs.hasDesc d = true
        · rw [if_pos h3] at hx
          exact hx
        · rw [if_neg h3] at hx
          have hlen : d.dropLast.length ≤ n := by
            have hpos : 0 < d.length := List.length_pos.mpr h1.1
            rw [List.length_dropLast]
            omega
          have hx2 := ih d.dropLast hlen (fs.removeDir d) x hx
          exact List.mem_of_mem_filter hx2
      · rw [if_neg h2] at hx
        exact hx
    · rw [if_neg h1] at hx
      exact hx

/-- Emptiness of a directory is preserved when nodes are kept and directories
only disappear. -/
theorem hasDesc_false_mono {fs1 fs2 : FS} (hn : fs2.nodes = fs1.nodes)
    (hd : ∀ x, x ∈ fs2.dirs → x ∈ fs1.dirs) {q : FPath}
    (h : fs1.hasDesc q = false) : fs2.hasDesc q = false := by
  unfold FS.hasDesc at h ⊢
  rw [Bool.or_eq_false_iff] at h ⊢
  obtain ⟨h1, h2⟩ := h
  rw [List.any_eq_false] at h1 h2 ⊢
  constructor
  · rw [hn]
    exact h1
  · rw [List.any_eq_false]
    intro x hx
    exact h2 x (hd x hx)

/-- Every directory removed by the upward walk lies inside the root, is an
ancestor of the start, and is empty in the final state (it was empty when it
was removed and only shrinking happened afterwards). -/
theorem cleanupUp_removed_spec (root : FPath) :
    ∀ (n : Nat) (d : FPath), d.length ≤ n →
      ∀ (fs : FS) (x : FPath), x ∈ fs.dirs →
        x ∉ (cleanupUp root fs d).dirs →
        root <+: x ∧ x <+: d ∧ (cleanupUp root fs d).hasDesc x = false := by
  intro n
  induction n with
  | zero =>
    intro d hd fs x hx hnx
    have hde : d = [] := List.length_eq_zero.mp (Nat.le_zero.mp hd)
    subst hde
    unfold cleanupUp at hnx
    simp at hnx
    exact absurd hx hnx
  | succ n ih =>
    intro d hd fs x hx hnx
    unfold cleanupUp at hnx ⊢
    by_cases h1 : d ≠ [] ∧ root.isPrefixOf d = true
    · rw [if_pos h1] at hnx ⊢
      by_cases h2 : d ∈ fs.dirs
      · rw [if_pos h2] at hnx ⊢
        by_cases h3 : fs.hasDesc d = true
        · rw [if_pos h3] at hnx ⊢
          exact absurd hx hnx
        · rw [if_neg h3] at hnx ⊢
          have hlen : d.dropLast.length ≤ n := by
            have hpos : 0 < d.length := List.length_pos.mpr h1.1
            rw [List.length_dropLast]
            omega
          by_cases hxd : x = d
          · subst hxd
            refine ⟨List.isPrefixOf_iff_prefix.mp h1.2, List.prefix_refl x, ?_⟩
            refine hasDesc_false_mono ?_ ?_ (Bool.eq_false_iff.mpr h3)
            · rw [cleanupUp_nodes root n x.dropLast hlen (fs.removeDir x)]
              rfl
            · intro y hy
              exact List.mem_of_mem_filter
                (cleanupUp_dirs_subset root n x.dropLast hlen
                  (fs.removeDir x) y hy)
          · have hx2 : x ∈ (fs.removeDir d).dirs := by
              unfold FS.removeDir
              simp only [List.mem_filter]
              exact ⟨hx, by simp [hxd]⟩
            have hr := ih d.dropLast hlen (fs.removeDir d) x hx2 hnx
            exact ⟨hr.1, hr.2.1.trans (List.dropLast_prefix d), hr.2.2⟩
      · rw [if_neg h2] at hnx
        exact absurd hx hnx
    · rw [if_neg h1] at hnx
      exact absurd hx hnx

/-!
## Claim theorems
-/

/-- C10: the dispatch containment check of `FileSyncHandler.dispatch` is a
string-prefix test, not a path-component test: an event path in the sibling
directory `input_dir + "2"` is accepted as inside the watched tree and
processed, while the component-level containment test rejects it and the
`relative_to` computation of `get_output_path` fails on it. -/
theorem C10_dispatch_accepts_string_prefix_sibling :
    dispatchProcesses "/data/in" ["/data/in2/file.png"] false = true ∧
    strIsPathInside "/data/in2/file.png" "/data/in" = false ∧
    strRelativeTo "/data/in2/file.png" "/data/in" = none := by
  refine ⟨by decide, by decide, by decide⟩

/-- C6: the claim says `wait_for_completion` returns `vanished` when the
monitored path disappears before stabilization and `timeout` after the
30-second bound.  The code has no such outcomes: when the path is absent the
loop body executes `continue`, which skips the timeout check, so with a
vanished path the call never returns at all, for any number of loop
iterations (`fuel`). -/
theorem C6_wait_never_returns_when_path_vanished (startTime fuel : Nat) :
    waitForCompletion (fun _ => none) startTime fuel = none :=
  waitLoop_absent_never_returns startTime fuel ⟨0, 0, 0⟩ startTime

/-- C4: the claim says starting a task executes the full-tree reconciliation
(`sync_one(path, initial)` for every file, then the empty-directory cleanup)
before the worker enters the watch loop.  In `TaskRunner._run_task` line 51
the async `sync_all_files` is called without `await`/`asyncio.run`, so the
coroutine is created and discarded: the worker's action trace contains no
`syncInitial` action for any file, even though the awaited body would have
performed one per file; the cleanup and the watch loop do run. -/
theorem C4_start_never_runs_reconciler (files : List FPath) :
    (∀ p : FPath, RunAction.syncInitial p ∉ runTaskActions files) ∧
    RunAction.watchLoopEnter ∈ runTaskActions files ∧
    RunAction.cleanupDirs ∈ runTaskActions files ∧
    syncAllFilesActions files = files.map RunAction.syncInitial := by
  refine ⟨fun p => ?_, ?_, ?_, rfl⟩ <;> simp [runTaskActions]

/-- C2: the claim says two handlers constructed with distinct task ids `t1 ≠
t2` key their cache reads and writes by their own id.  `CacheManager` is a
process-wide singleton whose `task_id` is assigned only by the first
construction, so the handler constructed second obtains a manager still
carrying `t1`: its updates land under `(path, t1)` and nothing is ever stored
under `t2`. -/
theorem C2_second_handler_inherits_first_task_id :
    (cacheManagerConstruct (cacheManagerConstruct ⟨none⟩ "t1").1 "t2").2 = "t1" ∧
    "t1" ≠ "t2" ∧
    (updateCacheDb ⟨[]⟩
        (cacheManagerConstruct (cacheManagerConstruct ⟨none⟩ "t1").1 "t2").2
        "/src/f" "d0d0" 3 4 .ok).find "/src/f" "t2" = none ∧
    (updateCacheDb ⟨[]⟩
        (cacheManagerConstruct (cacheManagerConstruct ⟨none⟩ "t1").1 "t2").2
        "/src/f" "d0d0" 3 4 .ok).find "/src/f" "t1" = some ⟨"d0d0", 3, 4⟩ := by
  refine ⟨by decide, by decide, by decide, by decide⟩

/-- C9: hash-cache failures never abort the caller: `get_cache` returns
`(None, None)` for a missing entry and for any read failure, never raising;
`update_cache` never raises, and on a write failure the transaction is rolled
back, leaving the stored table unchanged; a successful write upserts the
row. -/
theorem C9_cache_failures_never_abort (db : CacheDB) (tid path md5 : String)
    (mtime now : Nat) (f : DbFault) :
    (db.find path tid = none → (getCacheDb db tid path now f).1 = (none, none)) ∧
    (f ≠ .ok → (getCacheDb db tid path now f).1 = (none, none)) ∧
    (f ≠ .ok → updateCacheDb db tid path md5 mtime now f = db) ∧
    ((updateCacheDb db tid path md5 mtime now .ok).find path tid =
      some ⟨md5, mtime, now⟩) := by
  refine ⟨?_, ?_, ?_, ?_⟩
  · intro h; cases f <;> simp [getCacheDb, h]
  · intro h
    cases f with
    | ok => exact absurd rfl h
    | queryFail => rfl
    | commitFail => cases hf : db.find path tid <;> simp [getCacheDb, hf]
  · intro h
    cases f with
    | ok => exact absurd rfl h
    | queryFail => rfl
    | commitFail => rfl
  · simp [updateCacheDb, CacheDB.find, CacheDB.upsert, List.find?]

/-- Witness for C9 at concrete inputs. -/
theorem C9_witness :
    (getCacheDb ⟨[]⟩ "t" "p" 5 .queryFail).1 = (none, none) ∧
    updateCacheDb ⟨[]⟩ "t" "p" "d" 3 5 .commitFail = ⟨[]⟩ ∧
    (updateCacheDb ⟨[]⟩ "t" "p" "d" 3 5 .ok).find "p" "t" = some ⟨"d", 3, 5⟩ := by
  have h1 := C9_cache_failures_never_abort ⟨[]⟩ "t" "p" "d" 3 5 .queryFail
  have h2 := C9_cache_failures_never_abort ⟨[]⟩ "t" "p" "d" 3 5 .commitFail
  exact ⟨h1.2.1 (by decide), h2.2.2.1 (by decide),
    (C9_cache_failures_never_abort ⟨[]⟩ "t" "p" "d" 3 5 .ok).2.2.2⟩

/-- C3: the claim says that in every non-fast-path case (output missing or
sizes differing) `source_md5` is computed and the staged copy completes with
a rename.  For `kind = initial` with an existing output of a *different*
size, neither branch of the source's `if`/`else` assigns `source_md5`
(sync_files.py 222-240): the copy is staged, verification then evaluates the
unassigned local (`UnboundLocalError`), the temp file is removed and the
stale output survives — no source digest is ever computed and no rename
happens. -/
theorem C3_initial_size_mismatch_crashes :
    SyncStep.srcMd5Computed ∉
        (syncFileAsync cfgPng sysSizeDiff ["in", "a.png"] .initial .noFault).2 ∧
    SyncStep.renamed ∉
        (syncFileAsync cfgPng sysSizeDiff ["in", "a.png"] .initial .noFault).2 ∧
    SyncStep.errorLogged "UnboundLocalError source_md5" ∈
        (syncFileAsync cfgPng sysSizeDiff ["in", "a.png"] .initial .noFault).2 ∧
    (syncFileAsync cfgPng sysSizeDiff ["in", "a.png"] .initial
        .noFault).1.fs.lookup ["out", "a.png"] = some (.file [9] 5) ∧
    (syncFileAsync cfgPng sysSizeDiff ["in", "a.png"] .initial
        .noFault).1.fs.lookup ["out", "a.png.tmp"] = none := by
  refine ⟨by decide, by decide, by decide, by decide, by decide⟩

/-- C5 (amended): if the read, the write, or the verification (torn write) of
the stage-and-verify copy in `sync_file_async` fails — and nothing pre-exists
at `output_path + ".tmp"`, and any cached digest for the source is current —
then the temporary file is removed, the error is logged, the call returns,
and every mirror path (output_path included) retains exactly its prior
content; nothing is renamed.  (A failure of the final rename is excluded: see
the counterexample, where the pre-unlinked output is lost.) -/
theorem C5_stage_failures_leave_mirror_unchanged (cfg : HandlerCfg) (sys : Sys)
    (inp out : FPath) (evt : EventType) (fault : CopyFault)
    (hext : checkExt cfg.exts inp = true)
    (hout : getOutputPath cfg inp = some out)
    (htmp : sys.fs.lookup (tmpFPath out) = none)
    (hcache : ∀ d m, sys.cache.get inp = some (d, m) →
        ∀ c mt, sys.fs.statFile inp = some (c, mt) → m = mt → d = md5Digest c)
    (hbad : fault = .failRead ∨ (∃ bs, fault = .failWrite bs) ∨
        (∃ bs, fault = .corruptWrite bs ∧
          ∀ c, sys.fs.readFile inp = some c → bs ≠ c)) :
    (∀ p, (syncFileAsync cfg sys inp evt fault).1.fs.lookup p =
        sys.fs.lookup p) ∧
    SyncStep.renamed ∉ (syncFileAsync cfg sys inp evt fault).2 ∧
    (SyncStep.stageStart ∈ (syncFileAsync cfg sys inp evt fault).2 →
      ∃ msg, SyncStep.errorLogged msg ∈ (syncFileAsync cfg sys inp evt fault).2) := by
  by_cases hex : sys.fs.existsF inp = true
  · have hM := copyBranch_bad_fault
      { sys with fs := sys.fs.mkdirs out.dropLast } inp out evt fault
      (by simpa using htmp)
      (by
        intro d m hg c mt hstM hm
        rw [FS.statFile_mkdirs] at hstM
        exact hcache d m hg c mt hstM hm)
      (by
        rcases hbad with h | h | ⟨bs, hf, hbs⟩
        · exact Or.inl h
        · exact Or.inr (Or.inl h)
        · refine Or.inr (Or.inr ⟨bs, hf, ?_⟩)
          intro c hc
          rw [FS.readFile_mkdirs] at hc
          exact hbs c hc)
    simp only [syncFileAsync]
    rw [if_pos hex]
    simp only [hout]
    rw [if_pos hext]
    exact ⟨fun p => by rw [hM.1 p, FS.lookup_mkdirs], hM.2.1, hM.2.2⟩
  · simp only [syncFileAsync]
    rw [if_neg hex]
    simp

/-- Witness for C5 at a concrete input: a read fault while re-copying
`/in/a.png` over an existing `/out/a.png` leaves both mirror entries exactly
as they were. -/
theorem C5_witness :
    (syncFileAsync cfgPng sysPrior ["in", "a.png"] .write_complete
        .failRead).1.fs.lookup ["out", "a.png"] =
      sysPrior.fs.lookup ["out", "a.png"] ∧
    SyncStep.renamed ∉
      (syncFileAsync cfgPng sysPrior ["in", "a.png"] .write_complete
        .failRead).2 := by
  have h := C5_stage_failures_leave_mirror_unchanged cfgPng sysPrior
    ["in", "a.png"] ["out", "a.png"] .write_complete .failRead
    (by decide) (by decide) (by decide)
    (by
      intro d m hdm
      simp only [sysPrior, SyncCache.get, List.find?] at hdm
      cases hdm)
    (Or.inl rfl)
  exact ⟨h.1 ["out", "a.png"], h.2.1⟩

/-- Counterexample to C5 as stated: when the failing step is the final
`os.rename`, the mirror does not retain its prior content — the source
unlinks `output_path` before renaming, so a rename failure leaves the output
deleted (and the verified temp is removed as well). -/
theorem C5_counterexample_rename_fault_loses_output :
    sysPrior.fs.lookup ["out", "a.png"] = some (.file [2] 5) ∧
    (syncFileAsync cfgPng sysPrior ["in", "a.png"] .write_complete
        .failRename).1.fs.lookup ["out", "a.png"] = none ∧
    SyncStep.errorLogged "rename failed" ∈
      (syncFileAsync cfgPng sysPrior ["in", "a.png"] .write_complete
        .failRename).2 := by
  refine ⟨by decide, by decide, by decide⟩

/-- C7: after deletion reconciliation removes the mirror counterpart of a
deleted source path — using `os.path.lexists`, which counts broken symlinks
as present, so the counterpart entry is gone in every case — the handler
walks up the mirror tree: it removes only directories that lie inside
`output_dir` (component prefix, the start of the walk being a
`dirname`-ancestor of the counterpart, on which this agrees with the
source's `startswith` test), each removed directory is an ancestor of the
counterpart and was newly empty (it has no descendant in the final state),
and the walk stops at the first non-empty ancestor; no other node and no
directory outside `output_dir` is ever removed. -/
theorem C7_deletion_walk (cfg : HandlerCfg) (fs : FS) (src out : FPath)
    (hout : getOutputPath cfg src = some out) :
    (onDeleted cfg fs src).lookup out = none ∧
    (∀ p, p ≠ out → (onDeleted cfg fs src).lookup p = fs.lookup p) ∧
    (∀ d, d ∈ fs.dirs → d ∉ (onDeleted cfg fs src).dirs →
      cfg.outDir <+: d ∧ d <+: out.dropLast ∧
      (onDeleted cfg fs src).hasDesc d = false) := by
  have hod : onDeleted cfg fs src =
      cleanupUp cfg.outDir (if fs.lexists out then fs.removeNode out else fs)
        out.dropLast := by
    unfold onDeleted
    rw [hout]
  have hdirs1 : (if fs.lexists out then fs.removeNode out else fs).dirs =
      fs.dirs := by
    split <;> rfl
  have hnodes : (onDeleted cfg fs src).nodes =
      (if fs.lexists out then fs.removeNode out else fs).nodes := by
    rw [hod]
    exact cleanupUp_nodes cfg.outDir out.dropLast.length out.dropLast
      le_rfl _
  refine ⟨?_, ?_, ?_⟩
  · rw [FS.lookup_congr hnodes out]
    by_cases hl : fs.lexists out = true
    · rw [if_pos hl]
      exact FS.lookup_removeNode_self fs out
    · rw [if_neg hl]
      unfold FS.lexists at hl
      cases hlo : fs.lookup out with
      | none => rfl
      | some n =>
        rw [hlo] at hl
        exact absurd rfl hl
  · intro p hp
    rw [FS.lookup_congr hnodes p]
    by_cases hl : fs.lexists out = true
    · rw [if_pos hl]
      exact FS.lookup_removeNode_ne fs hp
    · rw [if_neg hl]
  · intro d hd hnd
    rw [hod] at hnd ⊢
    have hd1 : d ∈ (if fs.lexists out then fs.removeNode out else fs).dirs := by
      rw [hdirs1]
      exact hd
    exact cleanupUp_removed_spec cfg.outDir out.dropLast.length out.dropLast
      le_rfl _ d hd1 hnd

/-- Witness for C7 at a concrete tree: deleting `/in/a/b.png` removes the
mirror counterpart `/out/a/b.png` and touches no other node. -/
theorem C7_witness :
    (onDeleted cfgPng fsDelTree ["in", "a", "b.png"]).lookup
        ["out", "a", "b.png"] = none ∧
    (onDeleted cfgPng fsDelTree ["in", "a", "b.png"]).lookup ["in", "x"] =
      fsDelTree.lookup ["in", "x"] := by
  have h := C7_deletion_walk cfgPng fsDelTree ["in", "a", "b.png"]
    ["out", "a", "b.png"] (by decide)
  exact ⟨h.1, h.2.1 ["in", "x"] (by decide)⟩

/-- C8: the Batch Queue is FIFO: `add_task` appends at the tail; when no
drain is in flight, a drain occurs upon enqueue exactly when the queue
(including the new item) has reached `batch_size` or the time since the last
drain is at least `interval` (the queue is necessarily nonempty after the
append); a drain removes at most `batch_size` items from the front in FIFO
order and issues exactly those; while a drain is in flight (`processing`
set), a concurrent call drains nothing, so two drains never run
concurrently. -/
theorem C8_batch_queue_fifo_drain (batchSize interval now : Nat) (st : BPState)
    (item : FPath × EventType) (hbs : 0 < batchSize) :
    (st.processing = false →
      ((st.queue.length + 1 ≥ batchSize ∨ now - st.lastProcessTime ≥ interval) →
        (addTask batchSize interval now st item).2 =
            (st.queue ++ [item]).take batchSize ∧
        (addTask batchSize interval now st item).1.queue =
            (st.queue ++ [item]).drop batchSize ∧
        (addTask batchSize interval now st item).1.lastProcessTime = now ∧
        (addTask batchSize interval now st item).2 ≠ [] ∧
        (addTask batchSize interval now st item).2.length ≤ batchSize) ∧
      (¬(st.queue.length + 1 ≥ batchSize ∨ now - st.lastProcessTime ≥ interval) →
        (addTask batchSize interval now st item).2 = [] ∧
        (addTask batchSize interval now st item).1.queue = st.queue ++ [item])) ∧
    (st.processing = true →
      (addTask batchSize interval now st item).2 = [] ∧
      (addTask batchSize interval now st item).1.queue = st.queue ++ [item]) := by
  have hadd : addTask batchSize interval now st item =
      processBatchIfNeeded batchSize interval now
        ⟨st.queue ++ [item], st.lastProcessTime, st.processing⟩ := rfl
  have hq1 : st.queue ++ [item] ≠ [] := by simp
  have hie : (st.queue ++ [item]).isEmpty = false := by
    cases h : st.queue ++ [item] with
    | nil => exact absurd h hq1
    | cons a l => rfl
  constructor
  · intro hproc
    constructor
    · intro hcond
      have htake : (st.queue ++ [item]).take batchSize ≠ [] := by
        cases hq : st.queue ++ [item] with
        | nil => exact absurd hq hq1
        | cons a l =>
          cases batchSize with
          | zero => omega
          | succ k => simp
      have htie : ((st.queue ++ [item]).take batchSize).isEmpty = false := by
        cases h : (st.queue ++ [item]).take batchSize with
        | nil => exact absurd h htake
        | cons a l => rfl
      have hcb : (decide ((st.queue ++ [item]).length ≥ batchSize) ||
          (!(st.queue ++ [item]).isEmpty &&
            decide (now - st.lastProcessTime ≥ interval))) = true := by
        rcases hcond with h | h
        · simp [hie]
          omega
        · simp [hie, h]
      have hres : addTask batchSize interval now st item =
          (⟨(st.queue ++ [item]).drop batchSize, now, false⟩,
            (st.queue ++ [item]).take batchSize) := by
        rw [hadd]
        unfold processBatchIfNeeded
        rw [if_pos hcb]
        unfold processBatch
        rw [if_neg (by simp [hproc, hie])]
        simp [htie]
      rw [hres]
      refine ⟨rfl, rfl, rfl, htake, ?_⟩
      rw [List.length_take]
      exact Nat.min_le_left _ _
    · intro hcond
      push_neg at hcond
      obtain ⟨h1, h2⟩ := hcond
      have hcb : ¬ ((decide ((st.queue ++ [item]).length ≥ batchSize) ||
          (!(st.queue ++ [item]).isEmpty &&
            decide (now - st.lastProcessTime ≥ interval))) = true) := by
        have h1' : ¬ (st.queue ++ [item]).length ≥ batchSize := by
          simp only [List.length_append, List.length_cons, List.length_nil]
          omega
        have h2' : ¬ now - st.lastProcessTime ≥ interval := by omega
        simp [h1', h2']
        omega
      have hres : addTask batchSize interval now st item =
          (⟨st.queue ++ [item], st.lastProcessTime, st.processing⟩, []) := by
        rw [hadd]
        unfold processBatchIfNeeded
        rw [if_neg hcb]
      rw [hres]
      exact ⟨rfl, rfl⟩
  · intro hproc
    by_cases hcb : (decide ((st.queue ++ [item]).length ≥ batchSize) ||
        (!(st.queue ++ [item]).isEmpty &&
          decide (now - st.lastProcessTime ≥ interval))) = true
    · have hres : addTask batchSize interval now st item =
          (⟨st.queue ++ [item], st.lastProcessTime, st.processing⟩, []) := by
        rw [hadd]
        unfold processBatchIfNeeded
        rw [if_pos hcb]
        unfold processBatch
        rw [if_pos (by simp [hproc])]
      rw [hres]
      exact ⟨rfl, rfl⟩
    · have hres : addTask batchSize interval now st item =
          (⟨st.queue ++ [item], st.lastProcessTime, st.processing⟩, []) := by
        rw [hadd]
        unfold processBatchIfNeeded
        rw [if_neg hcb]
      rw [hres]
      exact ⟨rfl, rfl⟩

/-- Witness for C8 at a concrete call: queue `[a]`, batch size 2, interval 1,
one second elapsed; the enqueue of `b` drains both items in FIFO order. -/
theorem C8_witness :
    (0 : Nat) < 2 ∧
    (addTask 2 1 10 ⟨[(["a"], .initial)], 9, false⟩
        (["b"], .write_complete)).2 =
      [(["a"], .initial), (["b"], .write_complete)] := by
  refine ⟨by decide, ?_⟩
  have h := C8_batch_queue_fifo_drain 2 1 10 ⟨[(["a"], .initial)], 9, false⟩
    (["b"], .write_complete) (by decide)
  have h2 := (h.1 rfl).1 (Or.inl (by decide))
  simpa using h2.1

/-- C1 (corrected): after full-tree reconciliation (`sync_all_files` followed
by `cleanup_empty_dirs`) over a fixed source tree of regular files — with an
initially empty mirror, no stale cache entry for any source path, disjoint
input and output directories, and no source filename ending in ".tmp" —
every copy-set source file is mirrored at `output_dir/rel(f)` as a regular
file of the same byte length and the same MD5 digest, and every other source
file is mirrored there as a symbolic link whose realpath equals the realpath
of the source. -/
theorem C1_reconcile_mirrors_fresh (cfg : HandlerCfg) (sys : Sys)
    (hnodup : (sys.fs.nodes.map (·.1)).Nodup)
    (hdisj1 : ¬ cfg.inDir <+: cfg.outDir)
    (hdisj2 : ¬ cfg.outDir <+: cfg.inDir)
    (hsrcreg : ∀ p n, cfg.inDir <+: p → sys.fs.lookup p = some n →
      n.isFile = true)
    (hnotmp : ∀ g ∈ sourceFilesUnder sys.fs cfg.inDir,
        strEndsWith (g.getLastD "") ".tmp" = false)
    (hmirror : ∀ p, cfg.outDir <+: p → sys.fs.lookup p = none)
    (hcache : ∀ p d m, cfg.inDir <+: p → sys.cache.get p = some (d, m) →
      ∀ c mt, sys.fs.statFile p = some (c, mt) → m = mt → d = md5Digest c) :
    ∀ f ∈ sourceFilesUnder sys.fs cfg.inDir,
      (checkExt cfg.exts f = true →
        ∃ cs ms co mo, sys.fs.lookup f = some (.file cs ms) ∧
          (fullReconcile cfg sys).fs.lookup
              (cfg.outDir ++ f.drop cfg.inDir.length) = some (.file co mo) ∧
          co.length = cs.length ∧ md5Digest co = md5Digest cs) ∧
      (checkExt cfg.exts f = false →
        (fullReconcile cfg sys).fs.lookup
            (cfg.outDir ++ f.drop cfg.inDir.length) = some (.symlink f) ∧
        (fullReconcile cfg sys).fs.realpath
            (cfg.outDir ++ f.drop cfg.inDir.length) =
          (fullReconcile cfg sys).fs.realpath f) := by
  have hnodup2 : (sourceFilesUnder sys.fs cfg.inDir).Nodup :=
    (hnodup.filter _)
  have hinv0 : ReconInv cfg sys.fs sys [] := by
    refine ⟨fun p _ => rfl, by simp, ?_, hcache⟩
    intro p hp hne
    exact absurd (hmirror p hp) hne
  have hfold := recon_fold cfg sys.fs hdisj1 hdisj2 hsrcreg hnotmp
    (sourceFilesUnder sys.fs cfg.inDir) [] sys (fun t ht => ht)
    (fun t _ h => (List.not_mem_nil t) h)
    hnodup2 (by simp) hinv0
  have hsync : (sourceFilesUnder sys.fs cfg.inDir).foldl
      (fun s p => (syncFileAsync cfg s p .initial .noFault).1) sys =
      syncAllFiles cfg sys := rfl
  rw [hsync] at hfold
  obtain ⟨I1, I2, _, _⟩ := hfold
  intro f hf
  have hI2 := I2 f (by simpa using hf)
  obtain ⟨rel, hrelne, hfeq, hdrop, n0, hn0⟩ := src_mem_spec cfg sys.fs f hf
  have hpre : cfg.inDir <+: f := ⟨rel, hfeq.symm⟩
  obtain ⟨c, m, hn0f⟩ := Node.isFile_iff.mp (hsrcreg f n0 hpre hn0)
  subst hn0f
  have hnodes : (fullReconcile cfg sys).fs.nodes =
      (syncAllFiles cfg sys).fs.nodes := by
    unfold fullReconcile
    exact cleanupEmptyDirs_nodes _ _
  constructor
  · intro hck
    obtain ⟨cs, ms, m', hg0, hgs⟩ := hI2.1 hck
    refine ⟨cs, ms, cs, m', hg0, ?_, rfl, rfl⟩
    rw [FS.lookup_congr hnodes]
    exact hgs
  · intro hck
    have hgs := hI2.2 hck
    have hfnotout : ¬ cfg.outDir <+: f := fun h =>
      not_prefix_both hdisj1 hdisj2 hpre h
    have hsf1 : (syncAllFiles cfg sys).fs.lookup f = some (.file c m) := by
      rw [I1 f hfnotout]
      exact hn0
    refine ⟨?_, ?_⟩
    · rw [FS.lookup_congr hnodes]
      exact hgs
    · rw [FS.realpath_congr hnodes, FS.realpath_congr hnodes,
        realpath_of_symlink_file hgs hsf1, FS.realpath_file hsf1]

/-- Closed instance of the previous theorem: on the fresh two-file fixture,
reconciliation mirrors `in/a.png` with the source's byte length and MD5. -/
theorem C1_witness :
    (checkExt cfgPng.exts ["in", "a.png"] = true →
      ∃ cs ms co mo,
        sysFresh.fs.lookup ["in", "a.png"] = some (.file cs ms) ∧
        (fullReconcile cfgPng sysFresh).fs.lookup
            (cfgPng.outDir ++
              (["in", "a.png"] : FPath).drop cfgPng.inDir.length) =
          some (.file co mo) ∧
        co.length = cs.length ∧ md5Digest co = md5Digest cs) ∧
    (checkExt cfgPng.exts ["in", "a.png"] = false →
      (fullReconcile cfgPng sysFresh).fs.lookup
          (cfgPng.outDir ++
            (["in", "a.png"] : FPath).drop cfgPng.inDir.length) =
        some (.symlink ["in", "a.png"]) ∧
      (fullReconcile cfgPng sysFresh).fs.realpath
          (cfgPng.outDir ++
            (["in", "a.png"] : FPath).drop cfgPng.inDir.length) =
        (fullReconcile cfgPng sysFresh).fs.realpath ["in", "a.png"]) :=
  C1_reconcile_mirrors_fresh cfgPng sysFresh
    (by decide) (by decide) (by decide)
    (by
      intro p n _ hlk
      have hm := mem_of_lookup hlk
      simp only [sysFresh, List.mem_cons, List.not_mem_nil, or_false,
        Prod.mk.injEq] at hm
      rcases hm with ⟨_, rfl⟩ | ⟨_, rfl⟩ <;> rfl)
    (by decide)
    (by
      intro p hp
      rcases hlk : sysFresh.fs.lookup p with _ | n
      · rfl
      · exfalso
        have hm := mem_of_lookup hlk
        simp only [sysFresh, List.mem_cons, List.not_mem_nil, or_false,
          Prod.mk.injEq] at hm
        rcases hm with ⟨h1, -⟩ | ⟨h1, -⟩ <;> rw [h1] at hp <;>
          exact absurd hp (by decide))
    (by
      intro p d m _ hg
      simp [sysFresh, SyncCache.get] at hg)
    ["in", "a.png"] (by decide)

/-- Counterexample to C1 as stated: full reconciliation over a mirror that
already holds a same-size file with different content leaves that file
untouched (the `initial` fast path skips on size equality alone), so the
mirrored file's digest differs from the source's. -/
theorem C1_counterexample_size_only_fast_path :
    checkExt cfgPng.exts ["in", "a.png"] = true ∧
    sysSameSize.fs.lookup ["in", "a.png"] = some (.file [1] 0) ∧
    (fullReconcile cfgPng sysSameSize).fs.lookup ["out", "a.png"] =
      some (.file [2] 5) ∧
    md5Digest [2] ≠ md5Digest [1] := by
  refine ⟨by decide, by decide, by decide, by decide⟩

end AutoSync
